import Mathlib

/-!
Verification of the Architecture Graph Builder of `backend/app/main.py`
(github-repo-analyzer).

The Python source is shallowly embedded: dicts that are only ever used as
insertion-ordered key/value stores become association lists, Python sets
become duplicate-free lists in insertion order (Python set iteration order
is unspecified; every statement proved or refuted below is insensitive to
the order chosen, which is noted where it matters), and `re`-based
extraction is embedded as explicit scanners that are equivalent to the
source's regular expressions on the inputs considered (the equivalence
argument for each backtracking case is given in comments).

Sections:
  1. generic helpers (association lists, stable sorting)
  2. the bounded LRU result cache (`_cache_set` / `_cache_get`)
  3. Python module naming and import extraction
  4. Java package/import extraction (including the `cs_internal` NameError)
  5. graph accumulation and the three filter stages of `arch_graph`
  6. the end-to-end build for small repositories
  7. theorems for the claims
-/

namespace ArchGraph

/-! ## 1. Generic helpers -/

/-- First-match lookup in an association list with a default, mirroring
`dict.get(key, default)` (keys are unique in all uses below). -/
def lookupD [DecidableEq α] (m : List (α × β)) (k : α) (d : β) : β :=
  match m with
  | [] => d
  | (k2, v) :: rest => if k2 = k then v else lookupD rest k d

/-- First-match lookup returning an `Option`, mirroring `dict.get(key)`. -/
def lookupOpt [DecidableEq α] (m : List (α × β)) (k : α) : Option β :=
  match m with
  | [] => none
  | (k2, v) :: rest => if k2 = k then some v else lookupOpt rest k

/-- Increment a counter in an insertion-ordered dict, mirroring
`m[k] = m.get(k, 0) + 1`: an existing key keeps its position, a new key is
appended at the end. -/
def bump [DecidableEq α] (m : List (α × Nat)) (k : α) : List (α × Nat) :=
  match m with
  | [] => [(k, 1)]
  | (k2, v) :: rest => if k2 = k then (k2, v + 1) :: rest else (k2, v) :: bump rest k

/-- Add an element to an insertion-ordered set (`set.add`): no effect when
present, appended at the end when new. -/
def insertNew [DecidableEq α] (l : List α) (x : α) : List α :=
  if x ∈ l then l else l ++ [x]

/-- Insert into a list sorted descending by `key`, going past every element
whose key is at least as large: combined with a left fold this is a stable
descending sort, matching `list.sort(key=..., reverse=True)`. -/
def insertDescBy (key : α → Nat) (x : α) : List α → List α
  | [] => [x]
  | y :: ys => if key y < key x then x :: y :: ys else y :: insertDescBy key x ys

/-- Stable descending sort by a numeric key (Python's stable `sort` with
`reverse=True`). -/
def sortDescBy (key : α → Nat) (l : List α) : List α :=
  l.foldl (fun acc x => insertDescBy key x acc) []

/-- Does `s` end with `e` (`str.endswith`)? -/
def strEndsWith (s e : String) : Bool := e.toList.isSuffixOf s.toList

/-- Does `s` start with `p` (`str.startswith`)? -/
def strStartsWith (s p : String) : Bool := p.toList.isPrefixOf s.toList

/-- ASCII lower-casing of one character. -/
def charLower (c : Char) : Char :=
  if 65 ≤ c.toNat ∧ c.toNat ≤ 90 then Char.ofNat (c.toNat + 32) else c

/-- `str.lower()` on ASCII input. -/
def strLower (s : String) : String := String.mk (s.toList.map charLower)

/-- Split on a single character, preserving empty parts
(`str.split(c)`). -/
def splitOnChar (c : Char) : List Char → List (List Char)
  | [] => [[]]
  | x :: xs =>
    match splitOnChar c xs with
    | [] => [[x]]
    | h :: t => if x == c then [] :: h :: t else (x :: h) :: t

/-- `str.split(c)` returning strings. -/
def strSplitOn (s : String) (c : Char) : List String :=
  (splitOnChar c s.toList).map String.mk

/-- Replace each `/` by the separator string
(`rel.replace(os.sep, sep)` with `os.sep = '/'`). -/
def replaceSep (s sep : String) : String :=
  String.join (s.toList.map (fun c => if c == '/' then sep else String.mk [c]))

/-- Lexicographic code-point comparison of character lists, as Python
compares strings. -/
def charListLt : List Char → List Char → Bool
  | [], [] => false
  | [], _ :: _ => true
  | _ :: _, [] => false
  | a :: as, b :: bs =>
    if a.toNat < b.toNat then true
    else if b.toNat < a.toNat then false
    else charListLt as bs

/-- Python string comparison `a < b`. -/
def strLt (a b : String) : Bool := charListLt a.toList b.toList

/-- Insert into a list of strings sorted ascending (lexicographic on code
points, as Python compares `str`). -/
def insertStr (x : String) : List String → List String
  | [] => [x]
  | y :: ys => if strLt x y then x :: y :: ys else y :: insertStr x ys

/-- Sort strings ascending, mirroring `sorted(filtered_nodes)`. -/
def sortStrings (l : List String) : List String :=
  l.foldl (fun acc x => insertStr x acc) []

/-! ## 2. The bounded LRU result cache

`_STACK_CACHE` etc. are plain Python dicts used in insertion order; the
embedding is an association list whose head is the least-recently-used
entry and whose last element is the most-recently-used one. -/

/-- Capacity bound `_CACHE_LIMIT = 64`. -/
def CACHE_LIMIT : Nat := 64

/-- `_cache_set(cache, key, value)`: `cache.pop(key)` when present (all
entries for the key are removed; keys are unique), append `(key, value)`
at the end, and when the size exceeds the limit evict
`next(iter(cache))`, the first (least-recently-used) entry. -/
def cacheSet (c : List (String × V)) (k : String) (v : V) : List (String × V) :=
  let c1 := (c.filter (fun e => e.1 ≠ k)) ++ [(k, v)]
  if c1.length > CACHE_LIMIT then c1.drop 1 else c1

/-- `_cache_get(cache, key)`: on a hit the entry is popped and re-inserted
at the end (most-recently-used); the stored value and the updated cache are
returned. Stored values are graph dicts, never `None`, so the
`if val is not None` guard of the source is exactly the hit case. -/
def cacheGet (c : List (String × V)) (k : String) : Option V × List (String × V) :=
  match lookupOpt c k with
  | none => (none, c)
  | some v => (some v, (c.filter (fun e => e.1 ≠ k)) ++ [(k, v)])

/-- One cache operation: a write or a read. -/
inductive CacheOp (V : Type) where
  | set (k : String) (v : V)
  | get (k : String)

/-- Run a sequence of cache operations from a starting state. -/
def runOps (ops : List (CacheOp V)) (c : List (String × V)) : List (String × V) :=
  match ops with
  | [] => c
  | .set k v :: rest => runOps rest (cacheSet c k v)
  | .get k :: rest => runOps rest (cacheGet c k).2

/-! ## 3. Python module naming and import extraction

`os.sep` is `/` on the target platform. All repository texts considered
are ASCII, so Python's `\w` is `[A-Za-z0-9_]` and `\s` is the six ASCII
whitespace characters. -/

/-- Python regex class `\w` on ASCII input. -/
def isPyWord (c : Char) : Bool := c.isAlphanum || c == '_'

/-- Python regex class `\s` on ASCII input: space, tab, newline, carriage
return, vertical tab, form feed. -/
def isPySpace (c : Char) : Bool :=
  c == ' ' || c == '\t' || c == '\n' || c == '\r' || c == Char.ofNat 11 || c == Char.ofNat 12

/-- The character class `[\w\.\,\s]` of the first alternative of the
Python import pattern. -/
def isPyG1 (c : Char) : Bool := isPyWord c || c == '.' || c == ',' || isPySpace c

/-- The character class `[\w\.]`. -/
def isWordDot (c : Char) : Bool := isPyWord c || c == '.'

/-- Strip leading `/` characters, mirroring `lstrip(os.sep)`. -/
def lstripSlash (s : String) : String :=
  String.mk (s.toList.dropWhile (fun c => c == '/'))

/-- Strip `/` characters at both ends, mirroring `strip(os.sep)`. -/
def stripSlash (s : String) : String :=
  String.mk (((s.toList.dropWhile (fun c => c == '/')).reverse.dropWhile
    (fun c => c == '/')).reverse)

/-- Strip whitespace at both ends, mirroring `str.strip()` on ASCII. -/
def stripWS (s : String) : String :=
  String.mk (((s.toList.dropWhile isPySpace).reverse.dropWhile isPySpace).reverse)

/-- `_py_module_name(root, filepath)`: `.py` files only; the root prefix
and leading separators are removed, `__init__.py` drops its final 12
characters (the basename and the separator before it), other files drop
`.py`; an empty remainder yields `None`; separators become dots. -/
def pyModuleName (root fp : String) : Option String :=
  if ¬ strEndsWith fp ".py" then none
  else
    let rel := if strStartsWith fp root then lstripSlash (fp.drop root.length) else fp
    let rel2 := if strEndsWith rel "__init__.py" then rel.dropRight 12 else rel.dropRight 3
    let rel3 := stripSlash rel2
    if rel3 = "" then none
    else some (replaceSep rel3 ".")

/-- Drop the first matching extension from the list, mirroring the
`for e in exts: ... break` loop of `_rel_id_without_ext`. -/
def dropFirstExt (rel : String) : List String → String
  | [] => rel
  | e :: es => if strEndsWith rel e then rel.dropRight e.length else dropFirstExt rel es

/-- `_rel_id_without_ext(root, filepath, exts, sep)`: repo-relative id
without extension for files matching the given extensions. -/
def relIdWithoutExt (root fp : String) (exts : List String) (sep : String) : Option String :=
  if ¬ exts.any (fun e => strEndsWith fp e) then none
  else
    let rel := if strStartsWith fp root then lstripSlash (fp.drop root.length) else fp
    let rel2 := dropFirstExt rel exts
    let rel3 := stripSlash rel2
    if rel3 = "" then none
    else some (replaceSep rel3 sep)

/-! ### POSIX path helpers

`os.path` functions used by the JS/PHP/Ruby resolvers, embedded for
single-slash-rooted checkout paths. -/

/-- `os.path.join(a, b)` (two arguments): an absolute `b` replaces `a`,
otherwise `b` is appended with a separator unless `a` is empty or already
ends in one. -/
def pyJoin (a b : String) : String :=
  if strStartsWith b "/" then b
  else if a = "" || strEndsWith a "/" then a ++ b
  else a ++ "/" ++ b

/-- The component walk of `posixpath.normpath`: empty and `.` components
are dropped; `..` pops the previous component unless the path is relative
and nothing precedes it (or only `..`s do), and is dropped at the root of
an absolute path. The accumulator is kept reversed. -/
def normSegs (isAbs : Bool) : List String → List String → List String
  | [], acc => acc.reverse
  | c :: cs, acc =>
    if c = "" || c = "." then normSegs isAbs cs acc
    else if c ≠ ".." || (¬ isAbs ∧ acc = []) || (acc.headD "" = "..") then
      normSegs isAbs cs (c :: acc)
    else
      match acc with
      | _ :: rest => normSegs isAbs cs rest
      | [] => normSegs isAbs cs []

/-- `posixpath.normpath` (with the exactly-two-leading-slashes special
case). -/
def pyNormpath (p : String) : String :=
  if p = "" then "."
  else
    let pref :=
      if strStartsWith p "//" ∧ ¬ strStartsWith p "///" then "//"
      else if strStartsWith p "/" then "/" else ""
    let segs := normSegs (pref ≠ "") (strSplitOn p '/') []
    let res := pref ++ String.intercalate "/" segs
    if res = "" then "." else res

/-- `posixpath.dirname`: everything up to the last separator, with
trailing separators stripped unless the result is all separators. -/
def pyDirname (p : String) : String :=
  let cs := p.toList
  let head := (cs.reverse.dropWhile (fun c => ¬ (c == '/'))).reverse
  let head2 :=
    if head ≠ [] ∧ head.any (fun c => ¬ (c == '/')) then
      (head.reverse.dropWhile (fun c => c == '/')).reverse
    else head
  String.mk head2

/-- Length of the common prefix of two lists. -/
def commonPrefixLen [DecidableEq α] : List α → List α → Nat
  | a :: as, b :: bs => if a = b then commonPrefixLen as bs + 1 else 0
  | _, _ => 0

/-- `posixpath.relpath(path, start)` for absolute inputs (the checkout
paths are absolute, so `abspath` is `normpath` here). -/
def pyRelpath (path start : String) : String :=
  let pl := (strSplitOn (pyNormpath path) '/').filter (fun s => ¬ (s = ""))
  let sl := (strSplitOn (pyNormpath start) '/').filter (fun s => ¬ (s = ""))
  let i := commonPrefixLen sl pl
  let rel := (List.replicate (sl.length - i) "..") ++ pl.drop i
  if rel = [] then "." else String.intercalate "/" rel

/-- `os.path.exists` against the checked-out tree, modelled by the
repository's file paths: a path exists when it is a file or a directory
prefix of one (version-control metadata of the clone is not modelled; no
probed candidate reaches it). -/
def pathExists (paths : List String) (p : String) : Bool :=
  paths.any (fun f => f == p || strStartsWith f (p ++ "/"))

/-- One match of the Python import pattern
`^\s*import\s+([\w\.\,\s]+)|^\s*from\s+([\w\.]+)\s+import\s+` (group 1 or
group 2 respectively). -/
inductive PyM where
  | imp (raw : String)
  | frm (base : String)
deriving Repr, DecidableEq

/-- Attempt the second alternative `^\s*from\s+([\w\.]+)\s+import\s+` at a
position, given the text after the leading `\s*` run. Maximal character
runs are exact here: shrinking any greedy run would place a character of
its own class where the following literal or mandatory whitespace is
required, so no backtracking case survives. Returns the match, the rest of
the text, and whether the next position starts a line (the last consumed
character is a newline). -/
def pyTryFrom (r1 : List Char) : Option (PyM × List Char × Bool) :=
  if "from".toList.isPrefixOf r1 then
    let r2 := r1.drop 4
    let (w1, r3) := r2.span isPySpace
    let (g, r4) := r3.span isWordDot
    let (w2, r5) := r4.span isPySpace
    if 1 ≤ w1.length ∧ g ≠ [] ∧ 1 ≤ w2.length ∧ "import".toList.isPrefixOf r5 then
      let r6 := r5.drop 6
      let (w3, r7) := r6.span isPySpace
      if w3 ≠ [] then some (.frm (String.mk g), r7, (w3.getLastD ' ') == '\n')
      else none
    else none
  else none

/-- Attempt the import pattern at a `^` position (regex alternation tries
the `import` alternative first, then the `from` alternative). For the
first alternative, after `import` the mandatory `\s+` and the greedy group
`[\w\.\,\s]+` interact: the group class contains whitespace, so when no
class character follows the maximal whitespace run the engine backtracks
`\s+` by one character and the group captures exactly that single
whitespace character (possible only when the whitespace run has length at
least 2). -/
def pyTry (cs : List Char) : Option (PyM × List Char × Bool) :=
  let (_, r1) := cs.span isPySpace
  if "import".toList.isPrefixOf r1 then
    let r2 := r1.drop 6
    let (w, r3) := r2.span isPySpace
    if 1 ≤ w.length then
      let (g, r4) := r3.span isPyG1
      if g ≠ [] then some (.imp (String.mk g), r4, (g.getLastD ' ') == '\n')
      else if 2 ≤ w.length then
        some (.imp (String.mk [w.getLastD ' ']), r3, (w.getLastD ' ') == '\n')
      else pyTryFrom r1
    else pyTryFrom r1
  else pyTryFrom r1

/-- Left-to-right non-overlapping scan of `finditer` under `re.M`: the `^`
anchor restricts match starts to line-start positions; after a match the
scan resumes at the match end. The fuel is an upper bound on the number of
steps (each step consumes at least one character). -/
def pyScan : Nat → List Char → Bool → List PyM
  | 0, _, _ => []
  | _ + 1, [], _ => []
  | fuel + 1, c :: cs, atStart =>
    if atStart then
      match pyTry (c :: cs) with
      | some (m, rest, st) => m :: pyScan fuel rest st
      | none => pyScan fuel cs (c == '\n')
    else pyScan fuel cs (c == '\n')

/-- All matches of the Python import pattern in a file text. -/
def pyImportMatches (src : String) : List PyM :=
  pyScan (src.length + 1) src.toList true

/-- `re.split(r"\s+as\s+", part)[0]`: the prefix before the leftmost
occurrence of whitespace-delimited `as`. -/
def splitAsFirst : List Char → List Char
  | [] => []
  | c :: cs =>
    if isPySpace c then
      let (_, r1) := (c :: cs).span isPySpace
      if "as".toList.isPrefixOf r1 then
        let r2 := r1.drop 2
        match r2 with
        | d :: _ => if isPySpace d then [] else c :: splitAsFirst cs
        | [] => c :: splitAsFirst cs
      else c :: splitAsFirst cs
    else c :: splitAsFirst cs

/-- `name = re.split(r"\s+as\s+", part.strip())[0]`. -/
def pyNameOfPart (part : String) : String :=
  String.mk (splitAsFirst (stripWS part).toList)

/-- `".".join(tgt.split(".")[:3])`: keep at most the first three dot
segments. -/
def firstThreeSegs (s : String) : String :=
  String.intercalate "." ((strSplitOn s '.').take 3)

/-- The edge targets contributed by one match. Group 1 is split on commas
(`re.split(r"\s*,\s*", raw)` followed by `part.strip()` equals splitting
on the bare comma and stripping each part), empty names are skipped
(`if not name: continue`), and each name is truncated to three segments;
group 2 contributes its truncated base directly. -/
def pyMatchTargets (m : PyM) : List String :=
  match m with
  | .imp raw => (strSplitOn raw ',').filterMap (fun part =>
      let name := pyNameOfPart part
      if name = "" then none else some (firstThreeSegs name))
  | .frm base => [firstThreeSegs base]

/-! ## 3b. JS/TS module ids, import resolution and extraction -/

/-- `_js_module_id(root, filepath)`: files with a JS/TS extension only;
the root prefix and leading separators are removed, the first matching
extension in the order `.ts, .tsx, .js, .jsx` is dropped, an empty
remainder yields `None`, separators become `/`. -/
def jsModuleId (root fp : String) : Option String :=
  if ¬ ([".js", ".jsx", ".ts", ".tsx"].any (fun e => strEndsWith fp e)) then none
  else
    let rel := if strStartsWith fp root then lstripSlash (fp.drop root.length) else fp
    let rel2 := dropFirstExt rel [".ts", ".tsx", ".js", ".jsx"]
    let rel3 := stripSlash rel2
    if rel3 = "" then none
    else some (replaceSep rel3 "/")

/-- The candidate probe of `_resolve_js_import`: the first existing
candidate with a truthy `_js_module_id` wins (an existing candidate whose
id is `None` — e.g. the bare target existing as a directory — falls
through to the next candidate). -/
def firstResolved (paths : List String) (root : String) : List String → Option String
  | [] => none
  | c :: cs =>
    if pathExists paths c then
      match jsModuleId root c with
      | some mid => some mid
      | none => firstResolved paths root cs
    else firstResolved paths root cs

/-- `_resolve_js_import(module_spec, file_dir, root)`: the stripped spec;
relative (`.`) and rooted (`/`) specs are probed as the literal target,
the target with each source extension, and the target as a directory with
each index file, falling back to the root-relative path when nothing
exists; scoped package names keep two segments, other package names keep
their first segment. -/
def resolveJsImport (paths : List String) (moduleSpec fileDir root : String) : String :=
  let spec := stripWS moduleSpec
  if spec = "" then spec
  else if strStartsWith spec "." || strStartsWith spec "/" then
    let target :=
      if strStartsWith spec "/" then pyJoin root (lstripSlash spec)
      else pyNormpath (pyJoin fileDir spec)
    let candidates := [target,
      target ++ ".ts", target ++ ".tsx", target ++ ".js", target ++ ".jsx",
      pyJoin target "index.ts", pyJoin target "index.tsx",
      pyJoin target "index.js", pyJoin target "index.jsx"]
    match firstResolved paths root candidates with
    | some mid => mid
    | none => replaceSep (pyRelpath target root) "/"
  else if strStartsWith spec "@" then
    let parts := strSplitOn spec '/'
    if 2 ≤ parts.length then String.intercalate "/" (parts.take 2) else spec
  else (strSplitOn spec '/').headD spec

/-- A quote character of the `['\"]` classes. -/
def jsQuote (c : Char) : Bool := c == '\'' || c == '"'

/-- The class `[^'\"\n]` of the optional clause of `js_import_es`. -/
def isJsOptClass (c : Char) : Bool := ¬ (jsQuote c || c == '\n')

/-- A quoted specifier `['\"]([^'\"]+)['\"]`: either quote opens, the
greedy group runs to the next quote of either kind (maximal is exact: a
shorter group leaves a non-quote character where the closing quote must
match), either quote closes. Returns the group and the rest. -/
def jsQuoted (cs : List Char) : Option (String × List Char) :=
  match cs with
  | c :: rest =>
    if jsQuote c then
      let (g, r2) := rest.span (fun d => ¬ jsQuote d)
      if g ≠ [] then
        match r2 with
        | d :: r3 => if jsQuote d then some (String.mk g, r3) else none
        | [] => none
      else none
    else none
  | [] => none

/-- The optional clause `(?:[^'\"\n]+\s+from\s+)?` of `js_import_es`,
tried greedily: class lengths descend from the maximal run; for each
split the following `\s+from\s+` runs are forced maximal (the literal
`from` and the quote are not whitespace), then a quoted specifier must
follow. -/
def jsEsOptSearch (r3 : List Char) : Nat → Option (String × List Char)
  | 0 => none
  | i + 1 =>
    let after := r3.drop (i + 1)
    let attempt :=
      let (w1, r4) := after.span isPySpace
      if 1 ≤ w1.length ∧ "from".toList.isPrefixOf r4 then
        let r5 := r4.drop 4
        let (w2, r6) := r5.span isPySpace
        if 1 ≤ w2.length then jsQuoted r6 else none
      else none
    match attempt with
    | some res => some res
    | none => jsEsOptSearch r3 i

/-- Attempt `^\s*import\s+(?:[^'\"\n]+\s+from\s+)?['\"]([^'\"]+)['\"]` at
a `^` position. The leading `\s*` and the `\s+` after `import` are forced
maximal (`import` starts with a non-space; shrinking `\s+` only offers
splits whose continuation already failed at a whitespace position); the
optional clause is searched greedily and skipped when no split fits. -/
def jsEsTry (cs : List Char) : Option (String × List Char) :=
  let (_, r1) := cs.span isPySpace
  if "import".toList.isPrefixOf r1 then
    let r2 := r1.drop 6
    let (w, r3) := r2.span isPySpace
    if 1 ≤ w.length then
      let (x, _) := r3.span isJsOptClass
      match jsEsOptSearch r3 x.length with
      | some res => some res
      | none => jsQuoted r3
    else none
  else none

/-- Non-overlapping scan of `js_import_es.finditer` under `re.M` (a match
ends at a closing quote, never a newline). -/
def jsEsScan : Nat → List Char → Bool → List String
  | 0, _, _ => []
  | _ + 1, [], _ => []
  | fuel + 1, c :: cs, atStart =>
    if atStart then
      match jsEsTry (c :: cs) with
      | some (g, rest) => g :: jsEsScan fuel rest false
      | none => jsEsScan fuel cs (c == '\n')
    else jsEsScan fuel cs (c == '\n')

/-- All static-import specifiers of a file text. -/
def jsEsMatches (src : String) : List String :=
  jsEsScan (src.length + 1) src.toList true

/-- Attempt `require\(\s*['\"]([^'\"]+)['\"]\s*\)` at a position (the
pattern is unanchored); the `\s*` runs are forced maximal. -/
def jsReqTry (cs : List Char) : Option (String × List Char) :=
  if "require(".toList.isPrefixOf cs then
    let r1 := cs.drop 8
    let (_, r2) := r1.span isPySpace
    match jsQuoted r2 with
    | some (g, r3) =>
      let (_, r4) := r3.span isPySpace
      match r4 with
      | c :: r5 => if c = ')' then some (g, r5) else none
      | [] => none
    | none => none
  else none

/-- Non-overlapping scan of `js_require.finditer` over every position. -/
def jsReqScan : Nat → List Char → List String
  | 0, _ => []
  | _ + 1, [] => []
  | fuel + 1, c :: cs =>
    match jsReqTry (c :: cs) with
    | some (g, rest) => g :: jsReqScan fuel rest
    | none => jsReqScan fuel cs

/-- All `require(...)` specifiers of a file text. -/
def jsReqMatches (src : String) : List String :=
  jsReqScan (src.length + 1) src.toList

/-! ## 4. Java package and import extraction -/

/-- Attempt `^\s*package\s+([\w\.]+)\s*;` at a position (maximal runs are
exact: shrinking the greedy group leaves a class character where `\s*;`
must match). -/
def javaPkgTry (cs : List Char) : Option String :=
  let (_, r1) := cs.span isPySpace
  if "package".toList.isPrefixOf r1 then
    let r2 := r1.drop 7
    let (w1, r3) := r2.span isPySpace
    let (g, r4) := r3.span isWordDot
    let (_, r5) := r4.span isPySpace
    if 1 ≤ w1.length ∧ g ≠ [] ∧ r5.headD ' ' = ';' then some (String.mk g) else none
  else none

/-- Scan for the first match of the package pattern (`re.search` under
`re.M`; `^` restricts starts to line starts). -/
def javaPkgSearch : Nat → List Char → Bool → Option String
  | 0, _, _ => none
  | _ + 1, [], _ => none
  | fuel + 1, c :: cs, atStart =>
    if atStart then
      match javaPkgTry (c :: cs) with
      | some pkg => some pkg
      | none => javaPkgSearch fuel cs (c == '\n')
    else javaPkgSearch fuel cs (c == '\n')

/-- `java_package.search(src)`: the first package declaration, if any. -/
def javaPackageOf (src : String) : Option String :=
  javaPkgSearch (src.length + 1) src.toList true

/-- Attempt `^\s*import\s+([\w\.]+)\s*;` at a position; on success return
the captured group and the text after the consumed `;`. -/
def javaImpTry (cs : List Char) : Option (String × List Char) :=
  let (_, r1) := cs.span isPySpace
  if "import".toList.isPrefixOf r1 then
    let r2 := r1.drop 6
    let (w1, r3) := r2.span isPySpace
    let (g, r4) := r3.span isWordDot
    let (_, r5) := r4.span isPySpace
    if 1 ≤ w1.length ∧ g ≠ [] then
      match r5 with
      | c :: rest => if c = ';' then some (String.mk g, rest) else none
      | [] => none
    else none
  else none

/-- Non-overlapping scan of `java_import.finditer` (a match ends at `;`,
never at a newline, so the position after a match is never a line
start). -/
def javaImpScan : Nat → List Char → Bool → List String
  | 0, _, _ => []
  | _ + 1, [], _ => []
  | fuel + 1, c :: cs, atStart =>
    if atStart then
      match javaImpTry (c :: cs) with
      | some (g, rest) => g :: javaImpScan fuel rest false
      | none => javaImpScan fuel cs (c == '\n')
    else javaImpScan fuel cs (c == '\n')

/-- All Java import statements of a file text. -/
def javaImports (src : String) : List String :=
  javaImpScan (src.length + 1) src.toList true

/-! ## 4b. Go module detection and import extraction -/

/-- Attempt `^\s*module\s+([^\s]+)` at a `^` position (group maximal,
forced). -/
def goModTry (cs : List Char) : Option String :=
  let (_, r1) := cs.span isPySpace
  if "module".toList.isPrefixOf r1 then
    let r2 := r1.drop 6
    let (w, r3) := r2.span isPySpace
    let (g, _) := r3.span (fun c => ¬ isPySpace c)
    if 1 ≤ w.length ∧ g ≠ [] then some (String.mk g) else none
  else none

/-- `re.search` scan for the module pattern under `re.M`. -/
def goModSearch : Nat → List Char → Bool → Option String
  | 0, _, _ => none
  | _ + 1, [], _ => none
  | fuel + 1, c :: cs, atStart =>
    if atStart then
      match goModTry (c :: cs) with
      | some m => some m
      | none => goModSearch fuel cs (c == '\n')
    else goModSearch fuel cs (c == '\n')

/-- `_detect_go_module(root)`: read `go.mod` at the repo root (a missing
or empty file yields `None` via `if not mod`), search the module pattern,
and strip the group. -/
def detectGoModule (root : String) (repoFiles : List (String × String)) : Option String :=
  match lookupOpt repoFiles (pyJoin root "go.mod") with
  | none => none
  | some txt =>
    if txt = "" then none
    else
      match goModSearch (txt.length + 1) txt.toList true with
      | none => none
      | some m => some (stripWS m)

/-- Attempt `^\s*import\s+\"([^\"]+)\"` at a `^` position. -/
def goSingleTry (cs : List Char) : Option (String × List Char) :=
  let (_, r1) := cs.span isPySpace
  if "import".toList.isPrefixOf r1 then
    let r2 := r1.drop 6
    let (w, r3) := r2.span isPySpace
    if 1 ≤ w.length then
      match r3 with
      | '"' :: rest =>
        let (g, r4) := rest.span (fun c => ¬ (c == '"'))
        if g ≠ [] then
          match r4 with
          | '"' :: r5 => some (String.mk g, r5)
          | _ => none
        else none
      | _ => none
    else none
  else none

/-- Non-overlapping scan of `go_import_single.finditer` under `re.M`. -/
def goSingleScan : Nat → List Char → Bool → List String
  | 0, _, _ => []
  | _ + 1, [], _ => []
  | fuel + 1, c :: cs, atStart =>
    if atStart then
      match goSingleTry (c :: cs) with
      | some (g, rest) => g :: goSingleScan fuel rest false
      | none => goSingleScan fuel cs (c == '\n')
    else goSingleScan fuel cs (c == '\n')

/-- All single-line Go import paths of a file text. -/
def goSingleMatches (src : String) : List String :=
  goSingleScan (src.length + 1) src.toList true

/-- Attempt `^\s*import\s*\((.*?)\)` (under `re.S`) at a `^` position:
the lazy group is the run up to the first `)`, across newlines. -/
def goBlockTry (cs : List Char) : Option (String × List Char) :=
  let (_, r1) := cs.span isPySpace
  if "import".toList.isPrefixOf r1 then
    let r2 := r1.drop 6
    let (_, r3) := r2.span isPySpace
    match r3 with
    | '(' :: rest =>
      let (blk, r4) := rest.span (fun c => ¬ (c == ')'))
      match r4 with
      | ')' :: r5 => some (String.mk blk, r5)
      | _ => none
    | _ => none
  else none

/-- Non-overlapping scan of `go_import_block.finditer`: a match ends at
`)`, never a newline. -/
def goBlockScan : Nat → List Char → Bool → List String
  | 0, _, _ => []
  | _ + 1, [], _ => []
  | fuel + 1, c :: cs, atStart =>
    if atStart then
      match goBlockTry (c :: cs) with
      | some (g, rest) => g :: goBlockScan fuel rest false
      | none => goBlockScan fuel cs (c == '\n')
    else goBlockScan fuel cs (c == '\n')

/-- All parenthesized Go import blocks of a file text. -/
def goBlockMatches (src : String) : List String :=
  goBlockScan (src.length + 1) src.toList true

/-- The inner `re.finditer(r'\"([^\"]+)\"', block)` over a block: at a
quote with a nonempty group and a closing quote a match is produced and
the scan resumes after it; otherwise the scan advances one character. -/
def goQuotedScan : Nat → List Char → List String
  | 0, _ => []
  | _ + 1, [] => []
  | fuel + 1, c :: cs =>
    if c == '"' then
      let (g, r2) := cs.span (fun d => ¬ (d == '"'))
      if g ≠ [] then
        match r2 with
        | '"' :: r3 => String.mk g :: goQuotedScan fuel r3
        | _ => goQuotedScan fuel cs
      else goQuotedScan fuel cs
    else goQuotedScan fuel cs

/-- All quoted paths inside one import block. -/
def goQuotedMatches (block : String) : List String :=
  goQuotedScan (block.length + 1) block.toList

/-- Is the spec rewritten to a module-relative id
(`go_module and spec.startswith(go_module)`)? -/
def goIsRewritten (goMod : Option String) (spec : String) : Bool :=
  match goMod with
  | some m => strStartsWith spec m
  | none => false

/-- The Go edge target: module-prefixed paths are rewritten to the
module-relative id, others are kept verbatim. -/
def goDst (goMod : Option String) (spec : String) : String :=
  match goMod with
  | some m => if strStartsWith spec m then lstripSlash (spec.drop m.length) else spec
  | none => spec

/-! ## 4c. PHP and Ruby extraction -/

/-- Attempt one keyword alternative of `php_require` at a position:
`kw\s*\(\s*['\"]([^'\"]+)['\"]\s*\)` with all `\s*` runs forced
maximal. -/
def phpTryWith (kw : String) (cs : List Char) : Option (String × List Char) :=
  if kw.toList.isPrefixOf cs then
    let r1 := cs.drop kw.length
    let (_, r2) := r1.span isPySpace
    match r2 with
    | '(' :: rest =>
      let (_, r3) := rest.span isPySpace
      match jsQuoted r3 with
      | some (g, r4) =>
        let (_, r5) := r4.span isPySpace
        match r5 with
        | ')' :: r6 => some (g, r6)
        | _ => none
      | none => none
    | _ => none
  else none

/-- Attempt `(require|require_once|include|include_once)\s*\(...\)` at a
position: the alternation backtracks left to right, so each keyword is
tried in source order until one lets the rest of the pattern match. -/
def phpTry (cs : List Char) : Option (String × List Char) :=
  match phpTryWith "require" cs with
  | some r => some r
  | none =>
    match phpTryWith "require_once" cs with
    | some r => some r
    | none =>
      match phpTryWith "include" cs with
      | some r => some r
      | none => phpTryWith "include_once" cs

/-- Non-overlapping scan of `php_require.finditer` over every position. -/
def phpScan : Nat → List Char → List String
  | 0, _ => []
  | _ + 1, [] => []
  | fuel + 1, c :: cs =>
    match phpTry (c :: cs) with
    | some (g, rest) => g :: phpScan fuel rest
    | none => phpScan fuel cs

/-- All require/include arguments (group 2) of a PHP file text. -/
def phpMatches (src : String) : List String :=
  phpScan (src.length + 1) src.toList

/-- The PHP edge target for a nonempty stripped spec: leading-dot or
leading-slash specs are resolved against the importing file's directory
(a leading slash is dropped first) and fall back to the joined target
when `_rel_id_without_ext` yields nothing; other specs keep their first
path segment. -/
def phpDst (root fileDir spec : String) : String :=
  if strStartsWith spec "." || strStartsWith spec "/" then
    let target := if strStartsWith spec "/" then spec.drop 1 else spec
    (relIdWithoutExt root (pyNormpath (pyJoin fileDir target)) [".php"] "/").getD target
  else (strSplitOn spec '/').headD spec

/-- Attempt `^\s*require_relative\s+['\"]([^'\"]+)['\"]` at a `^`
position. -/
def rubyRelTry (cs : List Char) : Option (String × List Char) :=
  let (_, r1) := cs.span isPySpace
  if "require_relative".toList.isPrefixOf r1 then
    let r2 := r1.drop 16
    let (w, r3) := r2.span isPySpace
    if 1 ≤ w.length then jsQuoted r3 else none
  else none

/-- Attempt `^\s*require\s+['\"]([^'\"]+)['\"]` at a `^` position (a
`require_relative` line fails here: `_` is not whitespace). -/
def rubyReqTry (cs : List Char) : Option (String × List Char) :=
  let (_, r1) := cs.span isPySpace
  if "require".toList.isPrefixOf r1 then
    let r2 := r1.drop 7
    let (w, r3) := r2.span isPySpace
    if 1 ≤ w.length then jsQuoted r3 else none
  else none

/-- Non-overlapping scan of `ruby_require_rel.finditer` under `re.M`. -/
def rubyRelScan : Nat → List Char → Bool → List String
  | 0, _, _ => []
  | _ + 1, [], _ => []
  | fuel + 1, c :: cs, atStart =>
    if atStart then
      match rubyRelTry (c :: cs) with
      | some (g, rest) => g :: rubyRelScan fuel rest false
      | none => rubyRelScan fuel cs (c == '\n')
    else rubyRelScan fuel cs (c == '\n')

/-- All `require_relative` arguments of a Ruby file text. -/
def rubyRelMatches (src : String) : List String :=
  rubyRelScan (src.length + 1) src.toList true

/-- Non-overlapping scan of `ruby_require.finditer` under `re.M`. -/
def rubyReqScan : Nat → List Char → Bool → List String
  | 0, _, _ => []
  | _ + 1, [], _ => []
  | fuel + 1, c :: cs, atStart =>
    if atStart then
      match rubyReqTry (c :: cs) with
      | some (g, rest) => g :: rubyReqScan fuel rest false
      | none => rubyReqScan fuel cs (c == '\n')
    else rubyReqScan fuel cs (c == '\n')

/-- All plain `require` arguments of a Ruby file text. -/
def rubyReqMatches (src : String) : List String :=
  rubyReqScan (src.length + 1) src.toList true

/-- The `require_relative` edge target: the joined, normalized path's id,
falling back to the raw relative spec when it has no `.rb` extension. -/
def rbRelDst (root fileDir relp : String) : String :=
  (relIdWithoutExt root (pyNormpath (pyJoin fileDir relp)) [".rb"] "/").getD relp

/-- The plain `require` edge target: dot-prefixed specs resolve like
`require_relative`, others keep their first path segment. -/
def rbReqDst (root fileDir spec : String) : String :=
  if strStartsWith spec "." then
    (relIdWithoutExt root (pyNormpath (pyJoin fileDir spec)) [".rb"] "/").getD spec
  else (strSplitOn spec '/').headD spec

/-! ## 5. Graph accumulation and the filter stages -/

/-- The accumulator state of `arch_graph`: `nodes_set` and
`internal_nodes` (Python sets, embedded as duplicate-free lists in
insertion order), the per-node language tag of `node_meta`
(`setdefault`-written, hence first-writer-wins), and the weighted edge
dict `edges_map` in insertion order. -/
structure Accum where
  nodesList : List String
  internals : List String
  metaLang : List (String × String)
  edges : List ((String × String) × Nat)
deriving Repr, DecidableEq

/-- `nodes_set.add(n)`. -/
def Accum.addNode (a : Accum) (n : String) : Accum :=
  { a with nodesList := insertNew a.nodesList n }

/-- `internal_nodes.add(n)`. -/
def Accum.addInternal (a : Accum) (n : String) : Accum :=
  { a with internals := insertNew a.internals n }

/-- `node_meta.setdefault(n, {}).setdefault("lang", l)`: the tag is fixed
by the first writer and never overwritten. -/
def Accum.setLangDefault (a : Accum) (n l : String) : Accum :=
  { a with metaLang := match lookupOpt a.metaLang n with
      | some _ => a.metaLang
      | none => a.metaLang ++ [(n, l)] }

/-- `edges_map[(s, d)] = edges_map.get((s, d), 0) + 1`. -/
def Accum.bumpEdge (a : Accum) (p : String × String) : Accum :=
  { a with edges := bump a.edges p }

/-- The empty accumulator. -/
def emptyAccum : Accum := ⟨[], [], [], []⟩

/-- The first Python loop: every sampled Python file contributes its
module id as an internal node tagged `python`. -/
def pyAccumFirst (root : String) (files : List (String × String)) (a : Accum) : Accum :=
  files.foldl (fun a f =>
    match pyModuleName root f.1 with
    | none => a
    | some mod => ((a.addNode mod).addInternal mod).setLangDefault mod "python") a

/-- The loop body for one resolved target: bump the edge weight, add the
target node, tag it `python` (in source order). -/
def pyProcessTarget (mod : String) (a : Accum) (tgt : String) : Accum :=
  ((a.bumpEdge (mod, tgt)).addNode tgt).setLangDefault tgt "python"

/-- The second Python loop: every match occurrence contributes its targets
in order. File texts are given, so the `except: continue` read-failure
branch does not arise. -/
def pyAccumSecond (root : String) (files : List (String × String)) (a : Accum) : Accum :=
  files.foldl (fun a f =>
    match pyModuleName root f.1 with
    | none => a
    | some mod =>
      (pyImportMatches f.2).foldl
        (fun a m => (pyMatchTargets m).foldl (pyProcessTarget mod) a) a) a

/-- Both Python loops of `arch_graph`. -/
def pyAccum (root : String) (files : List (String × String)) (a : Accum) : Accum :=
  pyAccumSecond root files (pyAccumFirst root files a)

/-- Modelled from the spec for the refinement statement of weight
correctness: the flat list of raw import occurrences, one `(source,
target)` pair per matched occurrence across all sampled Python files, in
scan order and without any deduplication. -/
def pyOccurrencesSpec (root : String) (files : List (String × String)) :
    List (String × String) :=
  files.flatMap (fun f =>
    match pyModuleName root f.1 with
    | none => []
    | some mod => (pyImportMatches f.2).flatMap (fun m =>
        (pyMatchTargets m).map (fun t => (mod, t))))

/-- The first Java loop: files whose text is non-empty (`if not src:
continue`) and that declare a package contribute the package as an
internal node tagged `java`. The set `java_internal` built here is never
read by any later line of the source (the classification below consults
the undefined name `cs_internal` instead), so it is not part of the
state. -/
def javaAccumFirst (root : String) (files : List (String × String)) (a : Accum) : Accum :=
  files.foldl (fun a f =>
    if f.2 = "" then a
    else match javaPackageOf f.2 with
    | none => a
    | some pkg => ((a.addNode pkg).addInternal pkg).setLangDefault pkg "java") a

/-- The importing node id of the second Java loop: the declared package,
else the path-derived fallback, else `unknown` (the Python `or`
chain). -/
def javaSrcPkg (root : String) (f : String × String) : String :=
  match javaPackageOf f.2 with
  | some pkg => pkg
  | none => (relIdWithoutExt root f.1 [".java"] ".").getD "unknown"

/-- The second Java loop. For each file the source package id is added as
an internal node; for the first import match the edge is bumped and the
target node added, after which the line
`if any(dst.startswith(p + chr(46)) for p in cs_internal)` evaluates the
name `cs_internal`, which is defined nowhere in the module
(`java_internal` is the set actually built): iterating the generator
raises `NameError`, which propagates out of the handler. -/
def javaAccumSecond (root : String) (files : List (String × String)) (a : Accum) :
    Except String Accum :=
  match files with
  | [] => .ok a
  | f :: rest =>
    if f.2 = "" then javaAccumSecond root rest a
    else
      let srcPkg := javaSrcPkg root f
      let a2 := ((a.addNode srcPkg).addInternal srcPkg).setLangDefault srcPkg "java"
      match javaImports f.2 with
      | [] => javaAccumSecond root rest a2
      | dst :: _ =>
        let _ := ((a2.bumpEdge (srcPkg, dst)).addNode dst).setLangDefault dst "java"
        .error "NameError: name cs_internal is not defined"

/-- One static-import occurrence of the JS loop. The source writes the
edge, the target node and `setdefault("lang", "js")` before branching;
relative/rooted raw specs then mark the target internal (with a redundant
`js` setdefault), package specs take the external branch. In that branch
the manifest-version write `node_meta[dst] = {"pkg": ..., "lang": "npm"}`
is guarded by `dst not in node_meta`, which the preceding setdefault has
just made false, so only the `setdefault("lang", "npm")` no-op remains;
the embedding therefore needs no manifest model here. -/
def jsProcessEs (root : String) (paths : List String) (srcId fileDir : String)
    (a : Accum) (spec : String) : Accum :=
  if spec = "" then a
  else
    let dst := resolveJsImport paths spec fileDir root
    let a2 := ((a.bumpEdge (srcId, dst)).addNode dst).setLangDefault dst "js"
    if strStartsWith spec "." || strStartsWith spec "/" then
      (a2.addInternal dst).setLangDefault dst "js"
    else
      a2.setLangDefault dst "npm"

/-- One `require(...)` occurrence of the JS loop. Here no setdefault
precedes the branch: a fresh external target either gets the
version-metadata dict (whose `lang` is `npm`) when the nearest manifest
declares the package, or `setdefault("lang", "npm")` otherwise — both fix
the language tag to `npm` for a fresh id and neither overwrites an
existing tag, and the `pkg` payload is read by no later line of the
pipeline, so the embedding keeps only the lang write. -/
def jsProcessReq (root : String) (paths : List String) (srcId fileDir : String)
    (a : Accum) (spec : String) : Accum :=
  if spec = "" then a
  else
    let dst := resolveJsImport paths spec fileDir root
    let a2 := (a.bumpEdge (srcId, dst)).addNode dst
    if strStartsWith spec "." || strStartsWith spec "/" then
      (a2.addInternal dst).setLangDefault dst "js"
    else
      a2.setLangDefault dst "npm"

/-- The JS loop for one file: the module id becomes an internal `js`
node, then the static imports and the `require` calls are processed in
order (texts are given, so the `if src is None` branch does not
arise). -/
def jsAccumFile (root : String) (paths : List String) (a : Accum)
    (f : String × String) : Accum :=
  match jsModuleId root f.1 with
  | none => a
  | some srcId =>
    let a2 := ((a.addNode srcId).addInternal srcId).setLangDefault srcId "js"
    let fileDir := pyDirname f.1
    let a3 := (jsEsMatches f.2).foldl (jsProcessEs root paths srcId fileDir) a2
    (jsReqMatches f.2).foldl (jsProcessReq root paths srcId fileDir) a3

/-- The JS loop of `arch_graph`. -/
def jsAccum (root : String) (paths : List String) (files : List (String × String))
    (a : Accum) : Accum :=
  files.foldl (jsAccumFile root paths) a

/-- One single-line Go import: module-prefixed specs are rewritten and
marked internal before the edge and node writes; no language tag is
written in this loop. -/
def goProcessSingle (goMod : Option String) (srcId : String) (a : Accum)
    (spec : String) : Accum :=
  if spec = "" then a
  else
    let dst := goDst goMod spec
    let a2 := if goIsRewritten goMod spec then a.addInternal dst else a
    (a2.bumpEdge (srcId, dst)).addNode dst

/-- One quoted path of a Go import block: as the single-line case, plus
the `go` language tag. -/
def goProcessBlock (goMod : Option String) (srcId : String) (a : Accum)
    (spec : String) : Accum :=
  let dst := goDst goMod spec
  let a2 := if goIsRewritten goMod spec then a.addInternal dst else a
  (((a2.bumpEdge (srcId, dst)).addNode dst).setLangDefault dst "go")

/-- The Go loop for one file: the path-derived id becomes an internal
node (no language tag is written for it), then single imports, then the
quoted paths of each import block. -/
def goAccumFile (root : String) (goMod : Option String) (a : Accum)
    (f : String × String) : Accum :=
  match relIdWithoutExt root f.1 [".go"] "/" with
  | none => a
  | some srcId =>
    let a2 := (a.addNode srcId).addInternal srcId
    let a3 := (goSingleMatches f.2).foldl (goProcessSingle goMod srcId) a2
    (goBlockMatches f.2).foldl
      (fun a blk => (goQuotedMatches blk).foldl (goProcessBlock goMod srcId) a) a3

/-- The Go loop of `arch_graph`. -/
def goAccum (root : String) (goMod : Option String) (files : List (String × String))
    (a : Accum) : Accum :=
  files.foldl (goAccumFile root goMod) a

/-- One PHP require/include occurrence: the stripped argument; empty is
skipped, relative/rooted targets are resolved and marked internal, others
keep their first segment and get the `php` tag — each before the edge and
node writes. -/
def phpProcessReq (root : String) (srcId fileDir : String) (a : Accum)
    (spec0 : String) : Accum :=
  let spec := stripWS spec0
  if spec = "" then a
  else
    let dst := phpDst root fileDir spec
    let a2 :=
      if strStartsWith spec "." || strStartsWith spec "/" then a.addInternal dst
      else a.setLangDefault dst "php"
    (a2.bumpEdge (srcId, dst)).addNode dst

/-- The PHP loop for one file: the path-derived id becomes an internal
node (no tag), then — only when the text is non-empty (`if not src:
continue`) — each require/include occurrence is processed. -/
def phpAccumFile (root : String) (a : Accum) (f : String × String) : Accum :=
  match relIdWithoutExt root f.1 [".php"] "/" with
  | none => a
  | some srcId =>
    let a2 := (a.addNode srcId).addInternal srcId
    if f.2 = "" then a2
    else (phpMatches f.2).foldl (phpProcessReq root srcId (pyDirname f.1)) a2

/-- The PHP loop of `arch_graph`. -/
def phpAccum (root : String) (files : List (String × String)) (a : Accum) : Accum :=
  files.foldl (phpAccumFile root) a

/-- One `require_relative` occurrence: edge and node writes first, then
the internal marker and the `ruby` tag. -/
def rbProcessRel (root : String) (srcId fileDir : String) (a : Accum)
    (relp : String) : Accum :=
  let dst := rbRelDst root fileDir relp
  let a2 := (a.bumpEdge (srcId, dst)).addNode dst
  (a2.addInternal dst).setLangDefault dst "ruby"

/-- One plain `require` occurrence: dot-prefixed specs are resolved and
marked internal with the `ruby` tag, others keep their first segment with
the tag — each before the edge and node writes. -/
def rbProcessReq (root : String) (srcId fileDir : String) (a : Accum)
    (spec : String) : Accum :=
  if spec = "" then a
  else
    let dst := rbReqDst root fileDir spec
    let a2 :=
      if strStartsWith spec "." then (a.addInternal dst).setLangDefault dst "ruby"
      else a.setLangDefault dst "ruby"
    (a2.bumpEdge (srcId, dst)).addNode dst

/-- The Ruby loop for one file: the path-derived id becomes an internal
node (no tag); only for non-empty texts, `require_relative` occurrences
are processed, then plain `require` occurrences. -/
def rbAccumFile (root : String) (a : Accum) (f : String × String) : Accum :=
  match relIdWithoutExt root f.1 [".rb"] "/" with
  | none => a
  | some srcId =>
    let a2 := (a.addNode srcId).addInternal srcId
    if f.2 = "" then a2
    else
      let fileDir := pyDirname f.1
      let a3 := (rubyRelMatches f.2).foldl (rbProcessRel root srcId fileDir) a2
      (rubyReqMatches f.2).foldl (rbProcessReq root srcId fileDir) a3

/-- The Ruby loop of `arch_graph`. -/
def rbAccum (root : String) (files : List (String × String)) (a : Accum) : Accum :=
  files.foldl (rbAccumFile root) a

/-! ### Occurrence lists, modelled from the spec

For the weight-correctness refinement, each list below names the
raw import occurrences of one extractor — one `(source, target)` pair per
matched occurrence that the corresponding loop turns into an edge bump,
in scan order and without any deduplication. -/

/-- Modelled from the spec: the JS occurrences of one build. -/
def jsOccurrencesSpec (root : String) (paths : List String)
    (files : List (String × String)) : List (String × String) :=
  files.flatMap (fun f =>
    match jsModuleId root f.1 with
    | none => []
    | some srcId =>
      let fileDir := pyDirname f.1
      ((jsEsMatches f.2).filterMap (fun spec =>
        if spec = "" then none
        else some (srcId, resolveJsImport paths spec fileDir root)))
      ++ ((jsReqMatches f.2).filterMap (fun spec =>
        if spec = "" then none
        else some (srcId, resolveJsImport paths spec fileDir root))))

/-- Modelled from the spec: the Go occurrences of one build. -/
def goOccurrencesSpec (root : String) (goMod : Option String)
    (files : List (String × String)) : List (String × String) :=
  files.flatMap (fun f =>
    match relIdWithoutExt root f.1 [".go"] "/" with
    | none => []
    | some srcId =>
      ((goSingleMatches f.2).filterMap (fun spec =>
        if spec = "" then none else some (srcId, goDst goMod spec)))
      ++ ((goBlockMatches f.2).flatMap (fun blk =>
        (goQuotedMatches blk).map (fun spec => (srcId, goDst goMod spec)))))

/-- Modelled from the spec: the Java occurrences of one build (the code
crashes on the first of them, so a successful build has none). -/
def javaOccurrencesSpec (root : String) (files : List (String × String)) :
    List (String × String) :=
  files.flatMap (fun f =>
    if f.2 = "" then []
    else (javaImports f.2).map (fun dst => (javaSrcPkg root f, dst)))

/-- Modelled from the spec: the PHP occurrences of one build. -/
def phpOccurrencesSpec (root : String) (files : List (String × String)) :
    List (String × String) :=
  files.flatMap (fun f =>
    match relIdWithoutExt root f.1 [".php"] "/" with
    | none => []
    | some srcId =>
      if f.2 = "" then []
      else (phpMatches f.2).filterMap (fun spec0 =>
        let spec := stripWS spec0
        if spec = "" then none
        else some (srcId, phpDst root (pyDirname f.1) spec)))

/-- Modelled from the spec: the Ruby occurrences of one build. -/
def rbOccurrencesSpec (root : String) (files : List (String × String)) :
    List (String × String) :=
  files.flatMap (fun f =>
    match relIdWithoutExt root f.1 [".rb"] "/" with
    | none => []
    | some srcId =>
      if f.2 = "" then []
      else
        let fileDir := pyDirname f.1
        ((rubyRelMatches f.2).map (fun relp => (srcId, rbRelDst root fileDir relp)))
        ++ ((rubyReqMatches f.2).filterMap (fun spec =>
          if spec = "" then none else some (srcId, rbReqDst root fileDir spec))))

/-- The per-language buckets filled by the file walk (extension dispatch
of the `elif` chain; the directory denylist and the two sampling caps are
not modelled because every repository considered below is far below
them). -/
structure Buckets where
  py : List (String × String)
  js : List (String × String)
  go : List (String × String)
  java : List (String × String)
  cs : List (String × String)
  php : List (String × String)
  rb : List (String × String)
deriving Repr, DecidableEq

/-- Classify one file by its extension, first match wins. -/
def classifyFile (b : Buckets) (f : String × String) : Buckets :=
  if strEndsWith f.1 ".py" then { b with py := b.py ++ [f] }
  else if [".js", ".jsx", ".ts", ".tsx"].any (fun e => strEndsWith f.1 e) then
    { b with js := b.js ++ [f] }
  else if strEndsWith f.1 ".go" then { b with go := b.go ++ [f] }
  else if strEndsWith f.1 ".java" then { b with java := b.java ++ [f] }
  else if strEndsWith f.1 ".cs" then { b with cs := b.cs ++ [f] }
  else if strEndsWith f.1 ".php" then { b with php := b.php ++ [f] }
  else if strEndsWith f.1 ".rb" then { b with rb := b.rb ++ [f] }
  else b

/-- Classify all files of a repository. -/
def classifyFiles (files : List (String × String)) : Buckets :=
  files.foldl classifyFile ⟨[], [], [], [], [], [], []⟩

/-- `_lang_ok(node_id)` of the filter stage. It compares the RAW `lang`
request parameter (not the normalized `lang_norm` used for the include
flags) against the stored lowercased tag. -/
def langOk (lang : String) (metaLang : List (String × String)) (n : String) : Bool :=
  if lang = "all" then true
  else
    let l := strLower (lookupD metaLang n "")
    if lang = "js" then l == "js" || l == "npm"
    else l == strLower lang

/-- Stage 1: `filtered_nodes = {n for n in nodes_set if _lang_ok(n)}`
(embedded in insertion order). -/
def stage1 (a : Accum) (lang : String) : List String :=
  a.nodesList.filter (langOk lang a.metaLang)

/-- Stage 2: keep edges whose weight reaches `max(1, min_weight)` and
whose endpoints both survived stage 1, in dict order. -/
def stage2 (fn : List String) (edges : List ((String × String) × Nat)) (minWeight : Int) :
    List (String × String × Nat) :=
  edges.filterMap (fun e =>
    if (e.2 : Int) ≥ max 1 minWeight ∧ e.1.1 ∈ fn ∧ e.1.2 ∈ fn
    then some (e.1.1, e.1.2, e.2) else none)

/-- The degree dict: every surviving edge increments both endpoints. -/
def degMap (edges : List (String × String × Nat)) : List (String × Nat) :=
  edges.foldl (fun m e => bump (bump m e.1) e.2.1) []

/-- The degree of a node under the degree dict of the surviving edges
(`deg.get(n, 0)`). -/
def degOf (edges : List (String × String × Nat)) (n : String) : Nat :=
  lookupD (degMap edges) n 0

/-- The internal partition `[n for n in filtered_nodes if n in
internal_nodes]`. -/
def capInts (internalsSet fn : List String) : List String :=
  fn.filter (fun n => decide (n ∈ internalsSet))

/-- The external partition `[n for n in filtered_nodes if n not in
internal_nodes]`. -/
def capExts (internalsSet fn : List String) : List String :=
  fn.filter (fun n => decide (n ∉ internalsSet))

/-- The kept internal nodes: the partition sorted stably by degree
descending, truncated to `half = max(10, min(node_cap // 2,
len(internals)))`. -/
def capKeptInt (internalsSet fn : List String)
    (edges : List (String × String × Nat)) (cap : Int) : List String :=
  (sortDescBy (degOf edges) (capInts internalsSet fn)).take
    (max 10 (min (cap.toNat / 2) (capInts internalsSet fn).length))

/-- The kept external nodes: the partition sorted stably by degree
descending, truncated to the remaining budget `max(0, node_cap -
len(kept internals))`. -/
def capKeptExt (internalsSet fn : List String)
    (edges : List (String × String × Nat)) (cap : Int) : List String :=
  (sortDescBy (degOf edges) (capExts internalsSet fn)).take
    (cap - ((capKeptInt internalsSet fn edges cap).length : Int)).toNat

/-- Stage 3, the node cap: degrees from surviving edges, partition into
internal/external, stable sort each partition by degree descending, keep
`max(10, min(node_cap // 2, len(internals)))` internal nodes, fill the
remaining budget `max(0, node_cap - len(kept internals))` with external
nodes, and re-filter edges to those with both endpoints kept. Returns the
kept internals, the kept externals, and the surviving edges. -/
def capStage (internalsSet : List String) (fn : List String)
    (edges : List (String × String × Nat)) (cap : Int) :
    List String × List String × List (String × String × Nat) :=
  let keptInt := capKeptInt internalsSet fn edges cap
  let keptExt := capKeptExt internalsSet fn edges cap
  (keptInt, keptExt, edges.filter (fun e =>
    decide (e.1 ∈ keptInt ++ keptExt) && decide (e.2.1 ∈ keptInt ++ keptExt)))

/-- The returned graph document: nodes as `(id, is_internal)` sorted by
id (the label equals the id in the source), edges as
`(source, target, weight)`, and the stats tuple
`(node_count, edge_count, internal_nodes, external_nodes)`. -/
structure GraphOut where
  nodes : List (String × Bool)
  edges : List (String × String × Nat)
  stats : Nat × Nat × Nat × Nat
deriving Repr, DecidableEq

/-- The three filter stages and the response assembly of `arch_graph`
(lines 2330-2384 of the source): language filter over the raw `lang`
value, weight filter, optional degree-based node cap (`if node_cap and
node_cap > 0`), then nodes sorted by id with their internal/external type
taken from membership in the accumulated `internal_nodes`. -/
def archFilter (a : Accum) (lang : String) (minWeight : Int) (nodeCap : Int) : GraphOut :=
  let fn := stage1 a lang
  let fe := stage2 fn a.edges minWeight
  let outPair :=
    if 0 < nodeCap then
      let r := capStage a.internals fn fe nodeCap
      (r.1 ++ r.2.1, r.2.2)
    else (fn, fe)
  let nodes := (sortStrings outPair.1).map (fun n => (n, decide (n ∈ a.internals)))
  let intCount := (nodes.filter (fun p => p.2)).length
  let extCount := (nodes.filter (fun p => !p.2)).length
  { nodes := nodes, edges := outPair.2,
    stats := (nodes.length, outPair.2.length, intCount, extCount) }

/-! ## 6. The end-to-end build for small repositories -/

/-- The accumulation of `arch_graph` after the clone, for a repository
given as `(path, text)` pairs: classify files, normalize the language
selector for the include flags, then run the extractor loops in source
order — Python (two passes), JS/TS, Go, Java (two passes, the second
aborting with `NameError` on the first import), PHP, Ruby. The C# bucket
is collected and — exactly as in the source, which compiles
`cs_namespace` and `cs_using` but has no loop over `cs_files` — never
read. The filesystem probed by the JS resolver is the checked-out file
set. -/
def buildAccum (root : String) (repoFiles : List (String × String)) (lang : String) :
    Except String Accum :=
  let b := classifyFiles repoFiles
  let paths := repoFiles.map Prod.fst
  let langNorm := strLower (stripWS (if lang = "" then "all" else lang))
  let pyFiles := if langNorm ∈ ["all", "python", "py"] then b.py else []
  let jsFiles := if langNorm ∈ ["all", "js", "javascript", "npm"] then b.js else []
  let goFiles := if langNorm ∈ ["all", "go", "golang"] then b.go else []
  let javaFiles := if langNorm ∈ ["all", "java"] then b.java else []
  let phpFiles := if langNorm ∈ ["all", "php"] then b.php else []
  let rbFiles := if langNorm ∈ ["all", "ruby", "rb"] then b.rb else []
  let a1 := pyAccum root pyFiles emptyAccum
  let a2 := jsAccum root paths jsFiles a1
  let goMod := if langNorm ∈ ["all", "go", "golang"] then detectGoModule root repoFiles
               else none
  let a3 := goAccum root goMod goFiles a2
  let a4 := javaAccumFirst root javaFiles a3
  match javaAccumSecond root javaFiles a4 with
  | .error e => .error e
  | .ok a5 => .ok (rbAccum root rbFiles (phpAccum root phpFiles a5))

/-- Modelled from the spec: all raw import occurrences of one build, in
extractor order, selecting the same buckets as the build. -/
def allOccurrencesSpec (root : String) (repoFiles : List (String × String))
    (lang : String) : List (String × String) :=
  let b := classifyFiles repoFiles
  let paths := repoFiles.map Prod.fst
  let langNorm := strLower (stripWS (if lang = "" then "all" else lang))
  let pyFiles := if langNorm ∈ ["all", "python", "py"] then b.py else []
  let jsFiles := if langNorm ∈ ["all", "js", "javascript", "npm"] then b.js else []
  let goFiles := if langNorm ∈ ["all", "go", "golang"] then b.go else []
  let javaFiles := if langNorm ∈ ["all", "java"] then b.java else []
  let phpFiles := if langNorm ∈ ["all", "php"] then b.php else []
  let rbFiles := if langNorm ∈ ["all", "ruby", "rb"] then b.rb else []
  let goMod := if langNorm ∈ ["all", "go", "golang"] then detectGoModule root repoFiles
               else none
  pyOccurrencesSpec root pyFiles
  ++ jsOccurrencesSpec root paths jsFiles
  ++ goOccurrencesSpec root goMod goFiles
  ++ javaOccurrencesSpec root javaFiles
  ++ phpOccurrencesSpec root phpFiles
  ++ rbOccurrencesSpec root rbFiles

/-- The build pipeline of `arch_graph` after the clone: the accumulation
followed by the filter stages. -/
def buildArch (root : String) (repoFiles : List (String × String)) (lang : String)
    (minWeight nodeCap : Int) : Except String GraphOut :=
  match buildAccum root repoFiles lang with
  | .error e => .error e
  | .ok a => .ok (archFilter a lang minWeight nodeCap)

/-! ## Concrete inputs used by the claim theorems -/

/-- Scenario A: `pkg/__init__.py`, `pkg/a.py` with the single import line,
`pkg/b.py` with no imports, under checkout root `/r`. -/
def repoA : List (String × String) :=
  [("/r/pkg/__init__.py", ""),
   ("/r/pkg/a.py", "from pkg.b import helper\n"),
   ("/r/pkg/b.py", "")]

/-- A repository with one Java file declaring a package and containing
one import statement. -/
def repoJava : List (String × String) :=
  [("/r/A.java", "package com.x;\nimport com.y.Z;\n")]

/-- A repository with one C# file (file-scoped namespace declaration and a
using directive). -/
def repoCs : List (String × String) :=
  [("/r/A.cs", "namespace Demo.App;\nusing Other.Lib;\n")]

/-- The spreader node ids of the min-weight counterexample. -/
def cexSpreaders : List String :=
  ["s1", "s2", "s3", "s4", "s5", "s6", "s7", "s8", "s9", "s10"]

/-- The decoy external node ids of the min-weight counterexample. -/
def cexDecoys : List String := (List.range 20).map (fun i => "d" ++ toString (i + 1))

/-- An accumulated graph on which raising `min_weight` from 1 to 2 raises
the final edge count under `node_cap = 11`: thirteen internal nodes (ten
spreaders of weight-1 out-degree 2, two feeders of a shared external
pillar, and one source `a0` of the only weight-2 edge `a0 → x0`). At
`min_weight = 1` the kept nodes are the ten spreaders and the pillar, and
no surviving edge has both endpoints kept; at `min_weight = 2` only
`a0 → x0` survives the weight filter, its endpoints top both degree
rankings, and the edge is returned. Every degree comparison that decides
a kept set is strict, so the outcome does not depend on the (unspecified)
Python set iteration order that the node lists stand for. -/
def cexAccum : Accum :=
  { nodesList := cexSpreaders ++ ["f1", "f2", "a0", "p0"] ++ cexDecoys ++ ["x0"]
    internals := cexSpreaders ++ ["f1", "f2", "a0"]
    metaLang := []
    edges := ((List.range 10).flatMap (fun i =>
        [(("s" ++ toString (i + 1), "d" ++ toString (2 * i + 1)), 1),
         (("s" ++ toString (i + 1), "d" ++ toString (2 * i + 2)), 1)]))
      ++ [(("f1", "p0"), 1), (("f2", "p0"), 1), (("a0", "x0"), 2)] }

/-- A 64-entry cache at full capacity, for exercising the eviction path. -/
def fullCache : List (String × Nat) := (List.range CACHE_LIMIT).map (fun i => (toString i, i))

/-- The request parameters of the `arch_graph` endpoint that the cache key
and the build consume (`sha` is the resolved default-branch commit, `None`
when branch resolution returned no SHA). -/
structure ArchReq where
  owner : String
  name : String
  sha : Option String
  maxFiles : Int
  lang : String
  minWeight : Int
  nodeCap : Int

/-- The cache key
`f"{owner}/{name}@{last_sha or 'unknown'}:{max_files}"`. -/
def archCacheKey (r : ArchReq) : String :=
  r.owner ++ "/" ++ r.name ++ "@" ++ (r.sha.getD "unknown") ++ ":" ++ toString r.maxFiles

/-- The caching skeleton of the handler: look the key up (a hit returns
the stored graph — stored values are non-empty dicts, so `if cached:` is
exactly the hit test), otherwise build and store. The build function
abstracts the clone-walk-extract-filter body. -/
def archHandler (cache : List (String × GraphOut)) (r : ArchReq)
    (build : ArchReq → GraphOut) : GraphOut × List (String × GraphOut) :=
  let key := archCacheKey r
  match cacheGet cache key with
  | (some g, c2) => (g, c2)
  | (none, c2) =>
    let g := build r
    (g, cacheSet c2 key g)

/-- A concrete graph value for cache witnesses. -/
def demoGraph : GraphOut := ⟨[("m", true)], [], (1, 0, 1, 0)⟩

/-- A second concrete graph value, distinct from `demoGraph`. -/
def demoGraph2 : GraphOut := ⟨[("z", false)], [], (1, 0, 0, 1)⟩

/-! ## Helper lemmas: the cache -/

theorem length_filter_lt_of_lookup {V : Type} (c : List (String × V)) (k : String) (v : V)
    (h : lookupOpt c k = some v) :
    (c.filter (fun e => e.1 ≠ k)).length < c.length := by
  induction c with
  | nil => simp [lookupOpt] at h
  | cons e rest ih =>
    by_cases hk : e.1 = k
    · have : (List.filter (fun e => decide (e.1 ≠ k)) (e :: rest))
          = List.filter (fun e => decide (e.1 ≠ k)) rest := by
        simp [List.filter_cons, hk]
      rw [this]
      exact Nat.lt_succ_of_le (List.length_filter_le _ _)
    · simp only [lookupOpt, if_neg hk] at h
      have : (List.filter (fun e => decide (e.1 ≠ k)) (e :: rest))
          = e :: List.filter (fun e => decide (e.1 ≠ k)) rest := by
        simp [List.filter_cons, hk]
      rw [this, List.length_cons, List.length_cons]
      exact Nat.succ_lt_succ (ih h)

theorem cacheSet_length_le {V : Type} (c : List (String × V)) (k : String) (v : V)
    (h : c.length ≤ CACHE_LIMIT) : (cacheSet c k v).length ≤ CACHE_LIMIT := by
  unfold cacheSet
  set c1 := (c.filter (fun e => e.1 ≠ k)) ++ [(k, v)] with hc1
  by_cases hlen : c1.length > CACHE_LIMIT
  · simp only [hlen, if_true, List.length_drop]
    have : c1.length ≤ c.length + 1 := by
      simp only [hc1, List.length_append, List.length_cons, List.length_nil]
      have := List.length_filter_le (fun e => e.1 ≠ k) c
      omega
    omega
  · simp only [hlen, if_false]
    omega

theorem cacheGet_length_le {V : Type} (c : List (String × V)) (k : String)
    (h : c.length ≤ CACHE_LIMIT) : ((cacheGet c k).2).length ≤ CACHE_LIMIT := by
  unfold cacheGet
  cases hl : lookupOpt c k with
  | none => simpa using h
  | some v =>
    simp only [List.length_append, List.length_cons, List.length_nil]
    have := length_filter_lt_of_lookup c k v hl
    omega

theorem runOps_length_le {V : Type} (ops : List (CacheOp V)) (c : List (String × V))
    (h : c.length ≤ CACHE_LIMIT) : (runOps ops c).length ≤ CACHE_LIMIT := by
  induction ops generalizing c with
  | nil => simpa [runOps] using h
  | cons op rest ih =>
    cases op with
    | set k v => exact ih _ (cacheSet_length_le c k v h)
    | get k => exact ih _ (cacheGet_length_le c k h)

theorem filter_eq_self_of_not_mem_keys {V : Type} (c : List (String × V)) (k : String)
    (h : k ∉ c.map Prod.fst) : c.filter (fun e => e.1 ≠ k) = c := by
  induction c with
  | nil => rfl
  | cons e rest ih =>
    simp only [List.map_cons, List.mem_cons, not_or] at h
    have : (List.filter (fun e => decide (e.1 ≠ k)) (e :: rest))
        = e :: List.filter (fun e => decide (e.1 ≠ k)) rest := by
      have hne : ¬ e.1 = k := fun he => h.1 (Eq.symm he)
      simp [List.filter_cons, hne]
    rw [this, ih h.2]

theorem lookupOpt_append_singleton {V : Type} (l : List (String × V)) (k : String) (v : V)
    (h : ∀ e ∈ l, e.1 ≠ k) : lookupOpt (l ++ [(k, v)]) k = some v := by
  induction l with
  | nil => simp [lookupOpt]
  | cons e rest ih =>
    have he : e.1 ≠ k := h e (by simp)
    simp only [List.cons_append, lookupOpt, if_neg he]
    exact ih (fun x hx => h x (by simp [hx]))

theorem mem_filter_ne_key {V : Type} (c : List (String × V)) (k : String) :
    ∀ e ∈ c.filter (fun e => e.1 ≠ k), e.1 ≠ k := by
  intro e he
  have := List.of_mem_filter he
  simpa using this

theorem lookupOpt_cacheSet_self {V : Type} (c : List (String × V)) (k : String) (v : V) :
    lookupOpt (cacheSet c k v) k = some v := by
  unfold cacheSet
  set f := c.filter (fun e => e.1 ≠ k) with hf
  by_cases hlen : (f ++ [(k, v)]).length > CACHE_LIMIT
  · simp only [hlen, if_true]
    have hf1 : 1 ≤ f.length := by
      simp only [List.length_append, List.length_cons, List.length_nil] at hlen
      simp only [CACHE_LIMIT] at hlen
      omega
    rw [List.drop_append_of_le_length hf1]
    exact lookupOpt_append_singleton _ k v
      (fun e he => mem_filter_ne_key c k e (List.mem_of_mem_drop he))
  · simp only [hlen, if_false]
    exact lookupOpt_append_singleton _ k v (mem_filter_ne_key c k)

/-! ## Claim theorems: the result cache -/

/-- C9: each result cache never exceeds 64 entries after any sequence of
operations from the empty state; a get of a present key re-inserts the
entry at the most-recently-used end; a put always leaves the written entry
most-recently-used; and a put of a fresh key into a full cache evicts
exactly the least-recently-used (front) entry. -/
theorem c9_lru_cache :
    (∀ (ops : List (CacheOp Nat)), (runOps ops []).length ≤ CACHE_LIMIT)
    ∧ (∀ (c : List (String × Nat)) (k : String) (v : Nat),
        lookupOpt c k = some v → ((cacheGet c k).2).getLast? = some (k, v))
    ∧ (∀ (c : List (String × Nat)) (k : String) (v : Nat),
        (cacheSet c k v).getLast? = some (k, v))
    ∧ (∀ (c : List (String × Nat)) (k : String) (v : Nat),
        k ∉ c.map Prod.fst → c.length = CACHE_LIMIT →
        cacheSet c k v = c.tail ++ [(k, v)]) := by
  refine ⟨fun ops => runOps_length_le ops [] (by simp), ?_, ?_, ?_⟩
  · intro c k v h
    unfold cacheGet
    rw [h]
    exact List.getLast?_concat _
  · intro c k v
    unfold cacheSet
    set f := c.filter (fun e => e.1 ≠ k) with hf
    by_cases hlen : (f ++ [(k, v)]).length > CACHE_LIMIT
    · have hf1 : 1 ≤ f.length := by
        simp only [List.length_append, List.length_cons, List.length_nil] at hlen
        simp only [CACHE_LIMIT] at hlen
        omega
      simp only [hlen, if_true]
      rw [List.drop_append_of_le_length hf1]
      exact List.getLast?_concat _
    · simp only [hlen, if_false]
      exact List.getLast?_concat _
  · intro c k v hk hlen
    unfold cacheSet
    rw [filter_eq_self_of_not_mem_keys c k hk]
    have : (c ++ [(k, v)]).length > CACHE_LIMIT := by
      simp [hlen]
    simp only [this, if_true]
    have h1 : 1 ≤ c.length := by simp [hlen, CACHE_LIMIT]
    rw [List.drop_append_of_le_length h1, List.drop_one]

/-- Witness for C9 at concrete inputs: a get of the present key `k`
re-inserts its entry last, and a put of the fresh key `z` into a full
64-entry cache evicts exactly the front entry. -/
theorem c9_lru_cache_witness :
    (lookupOpt [("k", 5)] "k" = some 5
      ∧ ((cacheGet [("k", 5)] "k").2).getLast? = some ("k", 5))
    ∧ ("z" ∉ fullCache.map Prod.fst ∧ fullCache.length = CACHE_LIMIT
      ∧ cacheSet fullCache "z" 9 = fullCache.tail ++ [("z", 9)]) :=
  ⟨⟨by decide, c9_lru_cache.2.1 [("k", 5)] "k" 5 (by decide)⟩,
   ⟨by decide, by decide,
    c9_lru_cache.2.2.2 fullCache "z" 9 (by decide) (by decide)⟩⟩

/-- C10: the architecture-graph cache key contains only owner, name, the
resolved SHA and `max_files`; two requests agreeing on those four fields
share the key regardless of `lang`, `min_weight` and `node_cap`, and after
a first request is served, the second request returns exactly the first
request's graph — its own filter parameters and build function have no
effect on the hit. -/
theorem c10_cache_key (cache : List (String × GraphOut)) (r1 r2 : ArchReq)
    (build1 build2 : ArchReq → GraphOut)
    (ho : r2.owner = r1.owner) (hn : r2.name = r1.name) (hs : r2.sha = r1.sha)
    (hm : r2.maxFiles = r1.maxFiles) :
    archCacheKey r2 = archCacheKey r1
    ∧ (archHandler (archHandler cache r1 build1).2 r2 build2).1
      = (archHandler cache r1 build1).1 := by
  have hkey : archCacheKey r2 = archCacheKey r1 := by
    unfold archCacheKey
    rw [ho, hn, hs, hm]
  refine ⟨hkey, ?_⟩
  unfold archHandler
  simp only [hkey]
  cases hget : cacheGet cache (archCacheKey r1) with
  | mk hit c2 =>
    cases hit with
    | some g =>
      have hc2 : c2 = (cache.filter (fun e => e.1 ≠ archCacheKey r1)) ++ [(archCacheKey r1, g)] := by
        unfold cacheGet at hget
        cases hl : lookupOpt cache (archCacheKey r1) with
        | none => rw [hl] at hget; simp at hget
        | some g2 =>
          rw [hl] at hget
          simp only [Prod.mk.injEq, Option.some.injEq] at hget
          rw [← hget.2, ← hget.1]
      have hlook : lookupOpt c2 (archCacheKey r1) = some g := by
        rw [hc2]
        exact lookupOpt_append_singleton _ _ _ (mem_filter_ne_key cache (archCacheKey r1))
      simp only [cacheGet, hlook]
    | none =>
      have hlook : lookupOpt (cacheSet c2 (archCacheKey r1) (build1 r1)) (archCacheKey r1)
          = some (build1 r1) := lookupOpt_cacheSet_self c2 (archCacheKey r1) (build1 r1)
      simp only [cacheGet, hlook]

/-- Witness for C10: two concrete requests for the same repository, SHA
and `max_files`, differing in `lang`, `min_weight` and `node_cap`; the
second returns the graph built and cached by the first even though its own
build function would produce a different graph. -/
theorem c10_cache_key_witness :
    ((⟨"o", "n", some "c4f3", 3000, "js", 5, 50⟩ : ArchReq).owner
        = (⟨"o", "n", some "c4f3", 3000, "all", 2, 200⟩ : ArchReq).owner)
    ∧ (archCacheKey ⟨"o", "n", some "c4f3", 3000, "js", 5, 50⟩
        = archCacheKey ⟨"o", "n", some "c4f3", 3000, "all", 2, 200⟩
      ∧ (archHandler
          (archHandler [] ⟨"o", "n", some "c4f3", 3000, "all", 2, 200⟩ (fun _ => demoGraph)).2
          ⟨"o", "n", some "c4f3", 3000, "js", 5, 50⟩ (fun _ => demoGraph2)).1
        = (archHandler [] ⟨"o", "n", some "c4f3", 3000, "all", 2, 200⟩ (fun _ => demoGraph)).1) :=
  ⟨rfl, c10_cache_key [] ⟨"o", "n", some "c4f3", 3000, "all", 2, 200⟩
    ⟨"o", "n", some "c4f3", 3000, "js", 5, 50⟩ (fun _ => demoGraph) (fun _ => demoGraph2)
    rfl rfl rfl rfl⟩

/-! ## Helper lemmas: accumulation and weights -/

theorem edges_addNode (a : Accum) (n : String) : (a.addNode n).edges = a.edges := rfl

theorem edges_addInternal (a : Accum) (n : String) : (a.addInternal n).edges = a.edges := rfl

theorem edges_setLangDefault (a : Accum) (n l : String) :
    (a.setLangDefault n l).edges = a.edges := by
  unfold Accum.setLangDefault
  cases lookupOpt a.metaLang n <;> rfl

theorem edges_bumpEdge (a : Accum) (p : String × String) :
    (a.bumpEdge p).edges = bump a.edges p := rfl

theorem edges_pyProcessTarget (mod : String) (a : Accum) (tgt : String) :
    (pyProcessTarget mod a tgt).edges = bump a.edges (mod, tgt) := by
  unfold pyProcessTarget
  rw [edges_setLangDefault, edges_addNode, edges_bumpEdge]

theorem edges_foldl_targets (mod : String) (tgts : List String) (a : Accum) :
    (tgts.foldl (pyProcessTarget mod) a).edges
      = (tgts.map (fun t => (mod, t))).foldl bump a.edges := by
  induction tgts generalizing a with
  | nil => rfl
  | cons t rest ih =>
    simp only [List.foldl_cons, List.map_cons]
    rw [ih, edges_pyProcessTarget]

theorem edges_foldl_matches (mod : String) (ms : List PyM) (a : Accum) :
    ((ms.foldl (fun a m => (pyMatchTargets m).foldl (pyProcessTarget mod) a) a).edges)
      = (ms.flatMap (fun m => (pyMatchTargets m).map (fun t => (mod, t)))).foldl
          bump a.edges := by
  induction ms generalizing a with
  | nil => rfl
  | cons m rest ih =>
    simp only [List.foldl_cons, List.flatMap_cons, List.foldl_append]
    rw [ih, edges_foldl_targets]

theorem edges_pyAccumSecond (root : String) (files : List (String × String)) (a : Accum) :
    (pyAccumSecond root files a).edges
      = (pyOccurrencesSpec root files).foldl bump a.edges := by
  induction files generalizing a with
  | nil => rfl
  | cons f rest ih =>
    cases hm : pyModuleName root f.1 with
    | none =>
      have h1 : pyAccumSecond root (f :: rest) a = pyAccumSecond root rest a := by
        simp [pyAccumSecond, List.foldl_cons, hm]
      rw [h1, ih]
      simp [pyOccurrencesSpec, List.flatMap_cons, hm]
    | some mod =>
      have h1 : pyAccumSecond root (f :: rest) a
          = pyAccumSecond root rest
            ((pyImportMatches f.2).foldl
              (fun a m => (pyMatchTargets m).foldl (pyProcessTarget mod) a) a) := by
        simp [pyAccumSecond, List.foldl_cons, hm]
      rw [h1, ih, edges_foldl_matches]
      simp [pyOccurrencesSpec, List.flatMap_cons, hm, List.foldl_append]

theorem edges_pyAccumFirst (root : String) (files : List (String × String)) (a : Accum) :
    (pyAccumFirst root files a).edges = a.edges := by
  induction files generalizing a with
  | nil => rfl
  | cons f rest ih =>
    cases hm : pyModuleName root f.1 with
    | none =>
      have h1 : pyAccumFirst root (f :: rest) a = pyAccumFirst root rest a := by
        simp [pyAccumFirst, List.foldl_cons, hm]
      rw [h1, ih]
    | some mod =>
      have h1 : pyAccumFirst root (f :: rest) a
          = pyAccumFirst root rest
            (((a.addNode mod).addInternal mod).setLangDefault mod "python") := by
        simp [pyAccumFirst, List.foldl_cons, hm]
      rw [h1, ih, edges_setLangDefault, edges_addInternal, edges_addNode]

theorem lookupD_bump (m : List ((String × String) × Nat)) (q p : String × String) :
    lookupD (bump m q) p 0 = lookupD m p 0 + (if q = p then 1 else 0) := by
  induction m with
  | nil =>
    by_cases h : q = p <;> simp [bump, lookupD, h]
  | cons e rest ih =>
    by_cases h1 : e.1 = q
    · by_cases h2 : q = p
      · simp [bump, lookupD, h1, h2]
      · have : ¬ e.1 = p := by rw [h1]; exact h2
        simp [bump, lookupD, h1, h2, this]
    · by_cases h3 : e.1 = p
      · have h4 : ¬ p = q := by rw [← h3]; exact h1
        have h5 : ¬ q = p := fun hq => h4 (Eq.symm hq)
        simp [bump, lookupD, h1, h3, h4, h5]
      · simp [bump, lookupD, h1, h3, ih]

theorem lookupD_foldl_bump (occs : List (String × String))
    (m : List ((String × String) × Nat)) (p : String × String) :
    lookupD (occs.foldl bump m) p 0 = lookupD m p 0 + occs.count p := by
  induction occs generalizing m with
  | nil => simp
  | cons q rest ih =>
    simp only [List.foldl_cons]
    rw [ih, lookupD_bump]
    rw [List.count_cons]
    by_cases h : q = p
    · simp [h]
      omega
    · have : ¬ (p == q) = true := by
        simp only [beq_iff_eq]
        exact fun hpq => h (Eq.symm hpq)
      simp [h, this]

/-! ## Helper lemmas: the non-Python edge-writing loops -/

theorem edges_foldl_occ {β : Type} (step : Accum → β → Accum)
    (occF : β → Option (String × String))
    (hstep : ∀ a b, (step a b).edges = ((occF b).map (bump a.edges)).getD a.edges)
    (l : List β) (a : Accum) :
    (l.foldl step a).edges = (l.filterMap occF).foldl bump a.edges := by
  induction l generalizing a with
  | nil => rfl
  | cons b rest ih =>
    have h := hstep a b
    cases hb : occF b with
    | none =>
      rw [hb] at h
      simp only [Option.map_none', Option.getD_none] at h
      simp only [List.foldl_cons, List.filterMap_cons, hb]
      rw [ih, h]
    | some p =>
      rw [hb] at h
      simp only [Option.map_some', Option.getD_some] at h
      simp only [List.foldl_cons, List.filterMap_cons, hb]
      rw [ih, h]

theorem edges_foldl_flat {β : Type} (step : Accum → β → Accum)
    (occ : β → List (String × String))
    (hstep : ∀ a b, (step a b).edges = (occ b).foldl bump a.edges)
    (l : List β) (a : Accum) :
    (l.foldl step a).edges = (l.flatMap occ).foldl bump a.edges := by
  induction l generalizing a with
  | nil => rfl
  | cons b rest ih =>
    simp only [List.foldl_cons, List.flatMap_cons, List.foldl_append]
    rw [ih, hstep]

theorem edges_jsProcessEs (root : String) (paths : List String) (srcId fileDir : String)
    (a : Accum) (spec : String) :
    (jsProcessEs root paths srcId fileDir a spec).edges
      = (((if spec = "" then none
           else some (srcId, resolveJsImport paths spec fileDir root)) :
          Option (String × String)).map (bump a.edges)).getD a.edges := by
  unfold jsProcessEs
  by_cases h : spec = ""
  · simp [h]
  · by_cases h2 : (strStartsWith spec "." || strStartsWith spec "/") = true
    · simp [h, h2, edges_setLangDefault, edges_addInternal, edges_addNode, edges_bumpEdge]
    · simp [h, h2, edges_setLangDefault, edges_addNode, edges_bumpEdge]

theorem edges_jsProcessReq (root : String) (paths : List String) (srcId fileDir : String)
    (a : Accum) (spec : String) :
    (jsProcessReq root paths srcId fileDir a spec).edges
      = (((if spec = "" then none
           else some (srcId, resolveJsImport paths spec fileDir root)) :
          Option (String × String)).map (bump a.edges)).getD a.edges := by
  unfold jsProcessReq
  by_cases h : spec = ""
  · simp [h]
  · by_cases h2 : (strStartsWith spec "." || strStartsWith spec "/") = true
    · simp [h, h2, edges_setLangDefault, edges_addInternal, edges_addNode, edges_bumpEdge]
    · simp [h, h2, edges_setLangDefault, edges_addNode, edges_bumpEdge]

theorem edges_jsAccumFile (root : String) (paths : List String) (a : Accum)
    (f : String × String) :
    (jsAccumFile root paths a f).edges
      = ((match jsModuleId root f.1 with
          | none => []
          | some srcId =>
            ((jsEsMatches f.2).filterMap (fun spec =>
              if spec = "" then none
              else some (srcId, resolveJsImport paths spec (pyDirname f.1) root)))
            ++ ((jsReqMatches f.2).filterMap (fun spec =>
              if spec = "" then none
              else some (srcId, resolveJsImport paths spec (pyDirname f.1) root))) :
          List (String × String))).foldl bump a.edges := by
  unfold jsAccumFile
  cases hm : jsModuleId root f.1 with
  | none => simp
  | some srcId =>
    simp only []
    rw [edges_foldl_occ (jsProcessReq root paths srcId (pyDirname f.1))
        (fun spec => if spec = "" then none
          else some (srcId, resolveJsImport paths spec (pyDirname f.1) root))
        (edges_jsProcessReq root paths srcId (pyDirname f.1)),
      edges_foldl_occ (jsProcessEs root paths srcId (pyDirname f.1))
        (fun spec => if spec = "" then none
          else some (srcId, resolveJsImport paths spec (pyDirname f.1) root))
        (edges_jsProcessEs root paths srcId (pyDirname f.1)),
      edges_setLangDefault, edges_addInternal, edges_addNode, List.foldl_append]

theorem edges_jsAccum (root : String) (paths : List String)
    (files : List (String × String)) (a : Accum) :
    (jsAccum root paths files a).edges
      = (jsOccurrencesSpec root paths files).foldl bump a.edges :=
  edges_foldl_flat (jsAccumFile root paths) _
    (fun a f => edges_jsAccumFile root paths a f) files a

theorem edges_goProcessSingle (goMod : Option String) (srcId : String) (a : Accum)
    (spec : String) :
    (goProcessSingle goMod srcId a spec).edges
      = (((if spec = "" then none else some (srcId, goDst goMod spec)) :
          Option (String × String)).map (bump a.edges)).getD a.edges := by
  unfold goProcessSingle
  by_cases h : spec = ""
  · simp [h]
  · by_cases h2 : goIsRewritten goMod spec = true
    · simp [h, h2, edges_addInternal, edges_addNode, edges_bumpEdge]
    · simp [h, h2, edges_addNode, edges_bumpEdge]

theorem edges_goProcessBlock (goMod : Option String) (srcId : String) (a : Accum)
    (spec : String) :
    (goProcessBlock goMod srcId a spec).edges = bump a.edges (srcId, goDst goMod spec) := by
  unfold goProcessBlock
  by_cases h2 : goIsRewritten goMod spec = true
  · simp [h2, edges_setLangDefault, edges_addInternal, edges_addNode, edges_bumpEdge]
  · simp [h2, edges_setLangDefault, edges_addNode, edges_bumpEdge]

theorem edges_foldl_goBlock (goMod : Option String) (srcId : String)
    (specs : List String) (a : Accum) :
    (specs.foldl (goProcessBlock goMod srcId) a).edges
      = (specs.map (fun spec => (srcId, goDst goMod spec))).foldl bump a.edges := by
  induction specs generalizing a with
  | nil => rfl
  | cons s rest ih =>
    simp only [List.foldl_cons, List.map_cons]
    rw [ih, edges_goProcessBlock]

theorem edges_goAccumFile (root : String) (goMod : Option String) (a : Accum)
    (f : String × String) :
    (goAccumFile root goMod a f).edges
      = ((match relIdWithoutExt root f.1 [".go"] "/" with
          | none => []
          | some srcId =>
            ((goSingleMatches f.2).filterMap (fun spec =>
              if spec = "" then none else some (srcId, goDst goMod spec)))
            ++ ((goBlockMatches f.2).flatMap (fun blk =>
              (goQuotedMatches blk).map (fun spec => (srcId, goDst goMod spec)))) :
          List (String × String))).foldl bump a.edges := by
  unfold goAccumFile
  cases hm : relIdWithoutExt root f.1 [".go"] "/" with
  | none => simp
  | some srcId =>
    simp only []
    rw [edges_foldl_flat (fun a blk => (goQuotedMatches blk).foldl (goProcessBlock goMod srcId) a)
        (fun blk => (goQuotedMatches blk).map (fun spec => (srcId, goDst goMod spec)))
        (fun a blk => edges_foldl_goBlock goMod srcId (goQuotedMatches blk) a),
      edges_foldl_occ (goProcessSingle goMod srcId)
        (fun spec => if spec = "" then none else some (srcId, goDst goMod spec))
        (edges_goProcessSingle goMod srcId),
      edges_addInternal, edges_addNode, List.foldl_append]

theorem edges_goAccum (root : String) (goMod : Option String)
    (files : List (String × String)) (a : Accum) :
    (goAccum root goMod files a).edges
      = (goOccurrencesSpec root goMod files).foldl bump a.edges :=
  edges_foldl_flat (goAccumFile root goMod) _
    (fun a f => edges_goAccumFile root goMod a f) files a

theorem edges_phpProcessReq (root : String) (srcId fileDir : String) (a : Accum)
    (spec0 : String) :
    (phpProcessReq root srcId fileDir a spec0).edges
      = (((if stripWS spec0 = "" then none
           else some (srcId, phpDst root fileDir (stripWS spec0))) :
          Option (String × String)).map (bump a.edges)).getD a.edges := by
  unfold phpProcessReq
  by_cases h : stripWS spec0 = ""
  · simp [h]
  · by_cases h2 : (strStartsWith (stripWS spec0) "." || strStartsWith (stripWS spec0) "/") = true
    · simp [h, h2, edges_addInternal, edges_addNode, edges_bumpEdge]
    · simp [h, h2, edges_setLangDefault, edges_addNode, edges_bumpEdge]

theorem edges_phpAccumFile (root : String) (a : Accum) (f : String × String) :
    (phpAccumFile root a f).edges
      = ((match relIdWithoutExt root f.1 [".php"] "/" with
          | none => []
          | some srcId =>
            if f.2 = "" then []
            else (phpMatches f.2).filterMap (fun spec0 =>
              let spec := stripWS spec0
              if spec = "" then none
              else some (srcId, phpDst root (pyDirname f.1) spec)) :
          List (String × String))).foldl bump a.edges := by
  unfold phpAccumFile
  cases hm : relIdWithoutExt root f.1 [".php"] "/" with
  | none => simp
  | some srcId =>
    simp only []
    by_cases hf : f.2 = ""
    · simp [hf, edges_addInternal, edges_addNode]
    · simp only [if_neg hf]
      rw [edges_foldl_occ (phpProcessReq root srcId (pyDirname f.1))
          (fun spec0 =>
            let spec := stripWS spec0
            if spec = "" then none
            else some (srcId, phpDst root (pyDirname f.1) spec))
          (edges_phpProcessReq root srcId (pyDirname f.1)),
        edges_addInternal, edges_addNode]

theorem edges_phpAccum (root : String) (files : List (String × String)) (a : Accum) :
    (phpAccum root files a).edges = (phpOccurrencesSpec root files).foldl bump a.edges :=
  edges_foldl_flat (phpAccumFile root) _ (fun a f => edges_phpAccumFile root a f) files a

theorem edges_rbProcessRel (root : String) (srcId fileDir : String) (a : Accum)
    (relp : String) :
    (rbProcessRel root srcId fileDir a relp).edges
      = bump a.edges (srcId, rbRelDst root fileDir relp) := by
  unfold rbProcessRel
  simp [edges_setLangDefault, edges_addInternal, edges_addNode, edges_bumpEdge]

theorem edges_foldl_rbRel (root : String) (srcId fileDir : String)
    (relps : List String) (a : Accum) :
    (relps.foldl (rbProcessRel root srcId fileDir) a).edges
      = (relps.map (fun relp => (srcId, rbRelDst root fileDir relp))).foldl bump a.edges := by
  induction relps generalizing a with
  | nil => rfl
  | cons r rest ih =>
    simp only [List.foldl_cons, List.map_cons]
    rw [ih, edges_rbProcessRel]

theorem edges_rbProcessReq (root : String) (srcId fileDir : String) (a : Accum)
    (spec : String) :
    (rbProcessReq root srcId fileDir a spec).edges
      = (((if spec = "" then none else some (srcId, rbReqDst root fileDir spec)) :
          Option (String × String)).map (bump a.edges)).getD a.edges := by
  unfold rbProcessReq
  by_cases h : spec = ""
  · simp [h]
  · by_cases h2 : strStartsWith spec "." = true
    · simp [h, h2, edges_setLangDefault, edges_addInternal, edges_addNode, edges_bumpEdge]
    · simp [h, h2, edges_setLangDefault, edges_addNode, edges_bumpEdge]

theorem edges_rbAccumFile (root : String) (a : Accum) (f : String × String) :
    (rbAccumFile root a f).edges
      = ((match relIdWithoutExt root f.1 [".rb"] "/" with
          | none => []
          | some srcId =>
            if f.2 = "" then []
            else
              ((rubyRelMatches f.2).map (fun relp =>
                (srcId, rbRelDst root (pyDirname f.1) relp)))
              ++ ((rubyReqMatches f.2).filterMap (fun spec =>
                if spec = "" then none
                else some (srcId, rbReqDst root (pyDirname f.1) spec))) :
          List (String × String))).foldl bump a.edges := by
  unfold rbAccumFile
  cases hm : relIdWithoutExt root f.1 [".rb"] "/" with
  | none => simp
  | some srcId =>
    simp only []
    by_cases hf : f.2 = ""
    · simp [hf, edges_addInternal, edges_addNode]
    · simp only [if_neg hf]
      rw [edges_foldl_occ (rbProcessReq root srcId (pyDirname f.1))
          (fun spec => if spec = "" then none
            else some (srcId, rbReqDst root (pyDirname f.1) spec))
          (edges_rbProcessReq root srcId (pyDirname f.1)),
        edges_foldl_rbRel root srcId (pyDirname f.1),
        edges_addInternal, edges_addNode, List.foldl_append]

theorem edges_rbAccum (root : String) (files : List (String × String)) (a : Accum) :
    (rbAccum root files a).edges = (rbOccurrencesSpec root files).foldl bump a.edges :=
  edges_foldl_flat (rbAccumFile root) _ (fun a f => edges_rbAccumFile root a f) files a

theorem edges_javaAccumFirst (root : String) (files : List (String × String)) (a : Accum) :
    (javaAccumFirst root files a).edges = a.edges := by
  induction files generalizing a with
  | nil => rfl
  | cons f rest ih =>
    by_cases hf : f.2 = ""
    · have h1 : javaAccumFirst root (f :: rest) a = javaAccumFirst root rest a := by
        simp [javaAccumFirst, List.foldl_cons, hf]
      rw [h1, ih]
    · cases hm : javaPackageOf f.2 with
      | none =>
        have h1 : javaAccumFirst root (f :: rest) a = javaAccumFirst root rest a := by
          simp [javaAccumFirst, List.foldl_cons, hf, hm]
        rw [h1, ih]
      | some pkg =>
        have h1 : javaAccumFirst root (f :: rest) a
            = javaAccumFirst root rest
              (((a.addNode pkg).addInternal pkg).setLangDefault pkg "java") := by
          simp [javaAccumFirst, List.foldl_cons, hf, hm]
        rw [h1, ih, edges_setLangDefault, edges_addInternal, edges_addNode]

theorem javaAccumSecond_ok (root : String) (files : List (String × String)) (a a2 : Accum)
    (h : javaAccumSecond root files a = .ok a2) :
    a2.edges = a.edges ∧ javaOccurrencesSpec root files = [] := by
  induction files generalizing a with
  | nil =>
    simp only [javaAccumSecond, Except.ok.injEq] at h
    subst h
    exact ⟨rfl, rfl⟩
  | cons f rest ih =>
    by_cases hf : f.2 = ""
    · rw [show javaAccumSecond root (f :: rest) a = javaAccumSecond root rest a from by
        simp [javaAccumSecond, hf]] at h
      obtain ⟨h1, h2⟩ := ih a h
      refine ⟨h1, ?_⟩
      simpa [javaOccurrencesSpec, List.flatMap_cons, hf] using h2
    · cases him : javaImports f.2 with
      | nil =>
        rw [show javaAccumSecond root (f :: rest) a
            = javaAccumSecond root rest
              (((a.addNode (javaSrcPkg root f)).addInternal
                (javaSrcPkg root f)).setLangDefault (javaSrcPkg root f) "java") from by
          simp [javaAccumSecond, hf, him]] at h
        obtain ⟨h1, h2⟩ := ih _ h
        refine ⟨?_, ?_⟩
        · rw [h1, edges_setLangDefault, edges_addInternal, edges_addNode]
        · simpa [javaOccurrencesSpec, List.flatMap_cons, hf, him] using h2
      | cons dst ds =>
        rw [show javaAccumSecond root (f :: rest) a
            = .error "NameError: name cs_internal is not defined" from by
          simp [javaAccumSecond, hf, him]] at h
        simp at h

theorem accumPipeline_edges (root : String) (paths : List String) (goMod : Option String)
    (pyF jsF goF jaF phF rbF : List (String × String)) (accum : Accum)
    (h : (match javaAccumSecond root jaF
            (javaAccumFirst root jaF
              (goAccum root goMod goF
                (jsAccum root paths jsF (pyAccum root pyF emptyAccum)))) with
          | .error e => (Except.error e : Except String Accum)
          | .ok a5 => .ok (rbAccum root rbF (phpAccum root phF a5))) = .ok accum) :
    accum.edges
      = (pyOccurrencesSpec root pyF ++ jsOccurrencesSpec root paths jsF
        ++ goOccurrencesSpec root goMod goF ++ javaOccurrencesSpec root jaF
        ++ phpOccurrencesSpec root phF ++ rbOccurrencesSpec root rbF).foldl bump [] := by
  cases hj : javaAccumSecond root jaF
      (javaAccumFirst root jaF
        (goAccum root goMod goF (jsAccum root paths jsF (pyAccum root pyF emptyAccum)))) with
  | error e => rw [hj] at h; simp at h
  | ok a5 =>
    rw [hj] at h
    simp only [Except.ok.injEq] at h
    subst h
    obtain ⟨hje, hjs⟩ := javaAccumSecond_ok _ _ _ _ hj
    rw [edges_rbAccum, edges_phpAccum, hje, edges_javaAccumFirst, edges_goAccum,
      edges_jsAccum]
    rw [show (pyAccum root pyF emptyAccum).edges
        = (pyOccurrencesSpec root pyF).foldl bump [] from by
      unfold pyAccum
      rw [edges_pyAccumSecond, edges_pyAccumFirst]
      rfl]
    rw [hjs]
    simp [List.foldl_append]

/-! ## Claim theorem: weight correctness (C3) -/

/-- C3: in the accumulated graph of a completed build, before any weight
filtering, the recorded weight of every `(source, target)` pair equals
the number of raw import occurrences — across all sampled files of all
extractor loops that write the edge map — that resolve to that pair:
each matched occurrence bumps the weight by exactly one, and
repeated imports of the same target within one file are all counted. -/
theorem c3_weight_correctness (root : String) (repoFiles : List (String × String))
    (lang : String) (accum : Accum) (s d : String)
    (h : buildAccum root repoFiles lang = .ok accum) :
    lookupD accum.edges (s, d) 0 = (allOccurrencesSpec root repoFiles lang).count (s, d) := by
  have hb : accum.edges = (allOccurrencesSpec root repoFiles lang).foldl bump [] := by
    simp only [buildAccum] at h
    simp only [allOccurrencesSpec]
    exact accumPipeline_edges _ _ _ _ _ _ _ _ _ _ h
  rw [hb, lookupD_foldl_bump]
  simp [lookupD]

/-- Witness for C3: the Scenario A build completes, and the weight of the
accumulated edge `(pkg.a, pkg.b)` equals its occurrence count. -/
theorem c3_weight_correctness_witness :
    buildAccum "/r" repoA "all" = .ok (pyAccum "/r" repoA emptyAccum)
    ∧ lookupD (pyAccum "/r" repoA emptyAccum).edges ("pkg.a", "pkg.b") 0
      = (allOccurrencesSpec "/r" repoA "all").count ("pkg.a", "pkg.b") :=
  ⟨rfl, c3_weight_correctness "/r" repoA "all" (pyAccum "/r" repoA emptyAccum)
    "pkg.a" "pkg.b" rfl⟩

/-! ## Helper lemmas: sorting and membership -/

theorem mem_insertStr (x y : String) (l : List String) :
    y ∈ insertStr x l ↔ y = x ∨ y ∈ l := by
  induction l with
  | nil => simp [insertStr]
  | cons z zs ih =>
    by_cases h : strLt x z = true
    · simp [insertStr, h, List.mem_cons]
    · simp only [insertStr, if_neg h, List.mem_cons, ih]
      tauto

theorem mem_foldl_insertStr (l acc : List String) (y : String) :
    y ∈ l.foldl (fun acc x => insertStr x acc) acc ↔ y ∈ acc ∨ y ∈ l := by
  induction l generalizing acc with
  | nil => simp
  | cons x xs ih =>
    simp only [List.foldl_cons, ih, mem_insertStr, List.mem_cons]
    tauto

theorem mem_sortStrings (l : List String) (y : String) :
    y ∈ sortStrings l ↔ y ∈ l := by
  unfold sortStrings
  rw [mem_foldl_insertStr]
  simp

theorem length_insertStr (x : String) (l : List String) :
    (insertStr x l).length = l.length + 1 := by
  induction l with
  | nil => rfl
  | cons z zs ih =>
    by_cases h : strLt x z = true
    · simp [insertStr, h]
    · simp [insertStr, h, ih]

theorem length_foldl_insertStr (l acc : List String) :
    (l.foldl (fun acc x => insertStr x acc) acc).length = acc.length + l.length := by
  induction l generalizing acc with
  | nil => simp
  | cons x xs ih =>
    simp only [List.foldl_cons, ih, length_insertStr, List.length_cons]
    omega

theorem length_sortStrings (l : List String) :
    (sortStrings l).length = l.length := by
  unfold sortStrings
  rw [length_foldl_insertStr]
  simp

theorem mem_insertDescBy {α : Type} (key : α → Nat) (x y : α) (l : List α) :
    y ∈ insertDescBy key x l ↔ y = x ∨ y ∈ l := by
  induction l with
  | nil => simp [insertDescBy]
  | cons z zs ih =>
    by_cases h : key z < key x
    · simp [insertDescBy, h, List.mem_cons]
    · simp only [insertDescBy, if_neg h, List.mem_cons, ih]
      tauto

theorem mem_foldl_insertDescBy {α : Type} (key : α → Nat) (l acc : List α) (y : α) :
    y ∈ l.foldl (fun acc x => insertDescBy key x acc) acc ↔ y ∈ acc ∨ y ∈ l := by
  induction l generalizing acc with
  | nil => simp
  | cons x xs ih =>
    simp only [List.foldl_cons, ih, mem_insertDescBy, List.mem_cons]
    tauto

theorem mem_sortDescBy {α : Type} (key : α → Nat) (l : List α) (y : α) :
    y ∈ sortDescBy key l ↔ y ∈ l := by
  unfold sortDescBy
  rw [mem_foldl_insertDescBy]
  simp

theorem length_insertDescBy {α : Type} (key : α → Nat) (x : α) (l : List α) :
    (insertDescBy key x l).length = l.length + 1 := by
  induction l with
  | nil => rfl
  | cons z zs ih =>
    by_cases h : key z < key x
    · simp [insertDescBy, h]
    · simp [insertDescBy, h, ih]

theorem length_foldl_insertDescBy {α : Type} (key : α → Nat) (l acc : List α) :
    (l.foldl (fun acc x => insertDescBy key x acc) acc).length = acc.length + l.length := by
  induction l generalizing acc with
  | nil => simp
  | cons x xs ih =>
    simp only [List.foldl_cons, ih, length_insertDescBy, List.length_cons]
    omega

theorem length_sortDescBy {α : Type} (key : α → Nat) (l : List α) :
    (sortDescBy key l).length = l.length := by
  unfold sortDescBy
  rw [length_foldl_insertDescBy]
  simp

theorem pairwise_insertDescBy {α : Type} (key : α → Nat) (x : α) (l : List α)
    (h : List.Pairwise (fun a b => key b ≤ key a) l) :
    List.Pairwise (fun a b => key b ≤ key a) (insertDescBy key x l) := by
  induction l with
  | nil => simp [insertDescBy]
  | cons y ys ih =>
    rw [List.pairwise_cons] at h
    by_cases hxy : key y < key x
    · simp only [insertDescBy, if_pos hxy, List.pairwise_cons]
      refine ⟨?_, h⟩
      intro z hz
      rcases List.mem_cons.mp hz with hz | hz
      · subst hz
        exact Nat.le_of_lt hxy
      · exact Nat.le_trans (h.1 z hz) (Nat.le_of_lt hxy)
    · simp only [insertDescBy, if_neg hxy, List.pairwise_cons]
      refine ⟨?_, ih h.2⟩
      intro z hz
      rcases (mem_insertDescBy key x z ys).mp hz with hz | hz
      · subst hz
        omega
      · exact h.1 z hz

theorem pairwise_foldl_insertDescBy {α : Type} (key : α → Nat) (l acc : List α)
    (h : List.Pairwise (fun a b => key b ≤ key a) acc) :
    List.Pairwise (fun a b => key b ≤ key a)
      (l.foldl (fun acc x => insertDescBy key x acc) acc) := by
  induction l generalizing acc with
  | nil => simpa using h
  | cons x xs ih => exact ih _ (pairwise_insertDescBy key x acc h)

theorem pairwise_sortDescBy {α : Type} (key : α → Nat) (l : List α) :
    List.Pairwise (fun a b => key b ≤ key a) (sortDescBy key l) :=
  pairwise_foldl_insertDescBy key l [] (by simp)

theorem map_fst_tag (l : List String) (f : String → Bool) :
    (l.map (fun n => (n, f n))).map Prod.fst = l := by
  induction l with
  | nil => rfl
  | cons x xs ih => simp [ih]

theorem map_fst_comp_tag (l : List String) (f : String → Bool) :
    List.map (Prod.fst ∘ fun n => (n, f n)) l = l := by
  induction l with
  | nil => rfl
  | cons x xs ih => simp only [List.map_cons, Function.comp, ih]

theorem stage2_mem (fn : List String) (ed : List ((String × String) × Nat)) (mw : Int)
    (e : String × String × Nat) (he : e ∈ stage2 fn ed mw) :
    e.1 ∈ fn ∧ e.2.1 ∈ fn := by
  unfold stage2 at he
  rcases List.mem_filterMap.mp he with ⟨q, _, heq⟩
  by_cases hc : (q.2 : Int) ≥ max 1 mw ∧ q.1.1 ∈ fn ∧ q.1.2 ∈ fn
  · rw [if_pos hc] at heq
    cases heq
    exact ⟨hc.2.1, hc.2.2⟩
  · rw [if_neg hc] at heq
    cases heq

/-! ## Claim theorem: no dangling edges (C2) -/

/-- C2: for every accumulated graph (hence every successful build) and
every choice of `lang`, `min_weight` and `node_cap`, the returned graph is
node-closed: the source id and the target id of every returned edge appear
among the ids of the returned node list. -/
theorem c2_no_dangling_edges (a : Accum) (lang : String) (mw cap : Int)
    (e : String × String × Nat) (he : e ∈ (archFilter a lang mw cap).edges) :
    e.1 ∈ (archFilter a lang mw cap).nodes.map Prod.fst
    ∧ e.2.1 ∈ (archFilter a lang mw cap).nodes.map Prod.fst := by
  by_cases hcap : 0 < cap
  · simp only [archFilter, if_pos hcap, capStage, map_fst_tag] at he ⊢
    have hp := List.of_mem_filter he
    simp only [Bool.and_eq_true, decide_eq_true_eq] at hp
    constructor
    · rw [mem_sortStrings]
      exact hp.1
    · rw [mem_sortStrings]
      exact hp.2
  · simp only [archFilter, if_neg hcap, map_fst_tag] at he ⊢
    have hp := stage2_mem _ _ _ e he
    constructor
    · rw [mem_sortStrings]
      exact hp.1
    · rw [mem_sortStrings]
      exact hp.2

/-- Witness for C2: the surviving edge of Scenario A under
`min_weight = 1` has both endpoints among the returned node ids. -/
theorem c2_no_dangling_edges_witness :
    (("pkg.a", "pkg.b", 1) ∈ (archFilter (pyAccum "/r" repoA emptyAccum) "all" 1 200).edges)
    ∧ ("pkg.a" ∈ (archFilter (pyAccum "/r" repoA emptyAccum) "all" 1 200).nodes.map Prod.fst
      ∧ "pkg.b" ∈ (archFilter (pyAccum "/r" repoA emptyAccum) "all" 1 200).nodes.map Prod.fst) :=
  ⟨by decide,
   c2_no_dangling_edges (pyAccum "/r" repoA emptyAccum) "all" 1 200 ("pkg.a", "pkg.b", 1)
     (by decide)⟩

/-! ## Claim theorem: the node cap stage (C4) -/

/-- C4: with a positive `node_cap`, the capping stage keeps
`min(max(10, min(node_cap div 2, #internals)), #internals)` internal nodes
— so never fewer than 10 whenever at least 10 internal nodes survived the
earlier stages, in particular when both partitions exceed the cap — fills
the remaining budget `max(0, node_cap - kept internals)` with external
nodes, draws both kept lists from the respective partitions sorted by
degree descending (degrees computed from surviving edges), and re-filters
the edges to those whose endpoints were both kept; the returned graph's
edges and node ids are exactly those of the capping stage. -/
theorem c4_node_cap (A fn : List String) (ed : List (String × String × Nat)) (cap : Int)
    (hcap : 0 < cap) :
    ((capKeptInt A fn ed cap).length
      = min (max 10 (min (cap.toNat / 2) (capInts A fn).length)) (capInts A fn).length)
    ∧ (10 ≤ (capInts A fn).length → 10 ≤ (capKeptInt A fn ed cap).length)
    ∧ ((capKeptExt A fn ed cap).length
      = min (cap - ((capKeptInt A fn ed cap).length : Int)).toNat (capExts A fn).length)
    ∧ (∀ x ∈ capKeptInt A fn ed cap, x ∈ fn ∧ x ∈ A)
    ∧ (∀ x ∈ capKeptExt A fn ed cap, x ∈ fn ∧ x ∉ A)
    ∧ List.Pairwise (fun x y => degOf ed y ≤ degOf ed x) (capKeptInt A fn ed cap)
    ∧ List.Pairwise (fun x y => degOf ed y ≤ degOf ed x) (capKeptExt A fn ed cap)
    ∧ (∀ e, e ∈ (capStage A fn ed cap).2.2 ↔ e ∈ ed
        ∧ e.1 ∈ capKeptInt A fn ed cap ++ capKeptExt A fn ed cap
        ∧ e.2.1 ∈ capKeptInt A fn ed cap ++ capKeptExt A fn ed cap)
    ∧ ((cap < ((capInts A fn).length : Int)) → (cap < ((capExts A fn).length : Int)) →
        10 ≤ (capInts A fn).length → 10 ≤ (capKeptInt A fn ed cap).length)
    ∧ (∀ (a : Accum) (lang : String) (mw : Int),
        (archFilter a lang mw cap).edges
          = (capStage a.internals (stage1 a lang) (stage2 (stage1 a lang) a.edges mw) cap).2.2
        ∧ (archFilter a lang mw cap).nodes.map Prod.fst
          = sortStrings
              (capKeptInt a.internals (stage1 a lang) (stage2 (stage1 a lang) a.edges mw) cap
              ++ capKeptExt a.internals (stage1 a lang) (stage2 (stage1 a lang) a.edges mw) cap)) := by
  have hlenInt : (capKeptInt A fn ed cap).length
      = min (max 10 (min (cap.toNat / 2) (capInts A fn).length)) (capInts A fn).length := by
    unfold capKeptInt
    rw [List.length_take, length_sortDescBy]
  refine ⟨hlenInt, ?_, ?_, ?_, ?_, ?_, ?_, ?_, ?_, ?_⟩
  · intro h10
    rw [hlenInt]
    omega
  · unfold capKeptExt
    rw [List.length_take, length_sortDescBy]
  · intro x hx
    have hx2 : x ∈ capInts A fn := by
      have := List.take_subset _ _ hx
      exact (mem_sortDescBy _ _ x).mp this
    unfold capInts at hx2
    refine ⟨List.mem_of_mem_filter hx2, ?_⟩
    have := List.of_mem_filter hx2
    simpa using this
  · intro x hx
    have hx2 : x ∈ capExts A fn := by
      have := List.take_subset _ _ hx
      exact (mem_sortDescBy _ _ x).mp this
    unfold capExts at hx2
    refine ⟨List.mem_of_mem_filter hx2, ?_⟩
    have := List.of_mem_filter hx2
    simpa using this
  · exact List.Pairwise.sublist (List.take_sublist _ _) (pairwise_sortDescBy _ _)
  · exact List.Pairwise.sublist (List.take_sublist _ _) (pairwise_sortDescBy _ _)
  · intro e
    simp [capStage, List.mem_filter]
  · intro _ _ h10
    rw [hlenInt]
    omega
  · intro a lang mw
    constructor
    · simp [archFilter, if_pos hcap, capStage]
    · simp [archFilter, if_pos hcap, capStage, map_fst_tag, map_fst_comp_tag]

/-- Witness for C4 at a concrete input: twelve surviving internal nodes,
three surviving externals, no surviving edges, `node_cap = 21`; the kept
internal count evaluates to ten. -/
theorem c4_node_cap_witness :
    0 < (21 : Int)
    ∧ (capKeptInt ["i1", "i2", "i3", "i4", "i5", "i6", "i7", "i8", "i9", "i10", "i11", "i12"]
        ["i1", "i2", "i3", "i4", "i5", "i6", "i7", "i8", "i9", "i10", "i11", "i12", "e1", "e2", "e3"]
        [] 21).length
      = min (max 10 (min ((21 : Int).toNat / 2)
          (capInts ["i1", "i2", "i3", "i4", "i5", "i6", "i7", "i8", "i9", "i10", "i11", "i12"]
            ["i1", "i2", "i3", "i4", "i5", "i6", "i7", "i8", "i9", "i10", "i11", "i12", "e1", "e2", "e3"]).length))
          (capInts ["i1", "i2", "i3", "i4", "i5", "i6", "i7", "i8", "i9", "i10", "i11", "i12"]
            ["i1", "i2", "i3", "i4", "i5", "i6", "i7", "i8", "i9", "i10", "i11", "i12", "e1", "e2", "e3"]).length :=
  ⟨by decide,
   (c4_node_cap ["i1", "i2", "i3", "i4", "i5", "i6", "i7", "i8", "i9", "i10", "i11", "i12"]
     ["i1", "i2", "i3", "i4", "i5", "i6", "i7", "i8", "i9", "i10", "i11", "i12", "e1", "e2", "e3"]
     [] 21 (by decide)).1⟩

/-! ## Claim theorems: concrete builds (C1, C6, C7, C8) -/

/-- C1: Scenario A. The build over `pkg/__init__.py`, `pkg/a.py` (whose
only import line is `from pkg.b import helper`) and `pkg/b.py` yields
exactly the internal module nodes `pkg`, `pkg.a`, `pkg.b`; with
`min_weight = 1` the single edge `pkg.a → pkg.b` of weight 1 is returned,
and with the default `min_weight = 2` no edge is returned. -/
theorem c1_scenario_a :
    buildArch "/r" repoA "all" 1 200
      = .ok ⟨[("pkg", true), ("pkg.a", true), ("pkg.b", true)],
             [("pkg.a", "pkg.b", 1)], (3, 1, 3, 0)⟩
    ∧ buildArch "/r" repoA "all" 2 200
      = .ok ⟨[("pkg", true), ("pkg.a", true), ("pkg.b", true)], [], (3, 0, 3, 0)⟩ :=
  ⟨rfl, rfl⟩

/-- C6 (code bug): a repository containing one Java file with a package
declaration and one import statement does not get its target classified at
all — the classification line reads the undefined name `cs_internal`, so
the whole build raises `NameError` and the endpoint returns an internal
error instead of a graph. -/
theorem c6_java_classification_nameerror :
    buildArch "/r" repoJava "all" 2 200
      = .error "NameError: name cs_internal is not defined" := rfl

/-- C7 (code bug): the C# regexes `cs_namespace` and `cs_using` are
compiled but no loop over `cs_files` exists, so a repository consisting of
one C# file with a namespace declaration and a using directive contributes
no node and no edge: the build returns the empty graph rather than
Java-style nodes and edges. -/
theorem c7_csharp_contributes_nothing :
    buildArch "/r" repoCs "all" 2 200 = .ok ⟨[], [], (0, 0, 0, 0)⟩ := rfl

/-- C8 (code bug): the stage-1 node filter compares the raw `lang` value
against the stored tags, so the recognized synonym `py` — which does make
the walk include Python files — drops every node, returning the empty
graph, while the canonical tag `python` returns the three nodes of
Scenario A. -/
theorem c8_synonym_breaks_filter :
    buildArch "/r" repoA "py" 1 200 = .ok ⟨[], [], (0, 0, 0, 0)⟩
    ∧ buildArch "/r" repoA "python" 1 200
      = .ok ⟨[("pkg", true), ("pkg.a", true), ("pkg.b", true)],
             [("pkg.a", "pkg.b", 1)], (3, 1, 3, 0)⟩ :=
  ⟨rfl, rfl⟩

/-! ## Helper lemmas: monotonicity (C5) -/

theorem archFilter_edges_neg (a : Accum) (lang : String) (mw cap : Int) (h : ¬ 0 < cap) :
    (archFilter a lang mw cap).edges = stage2 (stage1 a lang) a.edges mw := by
  simp [archFilter, if_neg h]

theorem stage2_length_mono (fn : List String) (ed : List ((String × String) × Nat))
    (mw mw' : Int) (h : mw ≤ mw') :
    (stage2 fn ed mw').length ≤ (stage2 fn ed mw).length := by
  induction ed with
  | nil => simp [stage2]
  | cons e rest ih =>
    unfold stage2
    unfold stage2 at ih
    simp only [List.filterMap_cons]
    by_cases h2 : ((e.2 : Int) ≥ max 1 mw' ∧ e.1.1 ∈ fn ∧ e.1.2 ∈ fn)
    · have h1 : ((e.2 : Int) ≥ max 1 mw ∧ e.1.1 ∈ fn ∧ e.1.2 ∈ fn) := by
        refine ⟨?_, h2.2.1, h2.2.2⟩
        have := h2.1
        omega
      rw [if_pos h2, if_pos h1]
      simpa using ih
    · rw [if_neg h2]
      by_cases h1 : ((e.2 : Int) ≥ max 1 mw ∧ e.1.1 ∈ fn ∧ e.1.2 ∈ fn)
      · rw [if_pos h1]
        simp only [List.length_cons]
        exact Nat.le_succ_of_le ih
      · rw [if_neg h1]
        exact ih

theorem length_capKeptInt (A fn : List String) (ed : List (String × String × Nat)) (cap : Int) :
    (capKeptInt A fn ed cap).length
      = min (max 10 (min (cap.toNat / 2) (capInts A fn).length)) (capInts A fn).length := by
  unfold capKeptInt
  rw [List.length_take, length_sortDescBy]

theorem length_capKeptExt (A fn : List String) (ed : List (String × String × Nat)) (cap : Int) :
    (capKeptExt A fn ed cap).length
      = min (cap - ((capKeptInt A fn ed cap).length : Int)).toNat (capExts A fn).length := by
  unfold capKeptExt
  rw [List.length_take, length_sortDescBy]

theorem archFilter_nodes_len (a : Accum) (lang : String) (mw cap : Int) (h : 0 < cap) :
    (archFilter a lang mw cap).nodes.length
      = (capKeptInt a.internals (stage1 a lang) (stage2 (stage1 a lang) a.edges mw) cap).length
        + (capKeptExt a.internals (stage1 a lang) (stage2 (stage1 a lang) a.edges mw) cap).length := by
  simp [archFilter, if_pos h, capStage, List.length_map, length_sortStrings, List.length_append]

theorem capCountMono (nI nE : Nat) (c c' : Int) (h3 : 0 < c') (h4 : c' ≤ c) :
    min (max 10 (min (c'.toNat / 2) nI)) nI
      + min ((c' - ((min (max 10 (min (c'.toNat / 2) nI)) nI : Nat) : Int)).toNat) nE
    ≤ min (max 10 (min (c.toNat / 2) nI)) nI
      + min ((c - ((min (max 10 (min (c.toNat / 2) nI)) nI : Nat) : Int)).toNat) nE := by
  omega

/-! ## Claim theorems: monotonic filtering (C5) -/

/-- C5 counterexample: with repository contents and all other parameters
fixed (`lang = all`, `node_cap = 11`), raising `min_weight` from 1 to 2
strictly increases the returned edge count on `cexAccum` (0 edges at
`min_weight = 1`, 1 edge at `min_weight = 2`), because the weight-1 edges
reshape the degree ranking of the node-cap stage so that no surviving edge
keeps both endpoints. -/
theorem c5_minweight_counterexample :
    (1 : Int) ≤ 2
    ∧ (archFilter cexAccum "all" 1 11).edges.length
      < (archFilter cexAccum "all" 2 11).edges.length :=
  ⟨by decide, by decide⟩

/-- C5 as amended: with node capping disabled (`node_cap ≤ 0`), raising
`min_weight` never increases the returned edge count; and among positive
caps, lowering `node_cap` never increases the returned node count. (The
original claim fails only where the degree-based cap stage interacts with
the weight filter, as the counterexample shows.) -/
theorem c5_monotone_filtering (a : Accum) (lang : String)
    (mw mw' capNeg capLo capHi : Int)
    (h1 : capNeg ≤ 0) (h2 : mw ≤ mw') (h3 : 0 < capLo) (h4 : capLo ≤ capHi) :
    (archFilter a lang mw' capNeg).edges.length ≤ (archFilter a lang mw capNeg).edges.length
    ∧ (archFilter a lang mw capLo).nodes.length ≤ (archFilter a lang mw capHi).nodes.length := by
  constructor
  · rw [archFilter_edges_neg a lang mw' capNeg (by omega),
      archFilter_edges_neg a lang mw capNeg (by omega)]
    exact stage2_length_mono _ _ _ _ h2
  · rw [archFilter_nodes_len a lang mw capLo h3,
      archFilter_nodes_len a lang mw capHi (by omega)]
    simp only [length_capKeptExt, length_capKeptInt]
    exact capCountMono _ _ capHi capLo h3 h4

/-- Witness for the amended C5 at concrete inputs: on `cexAccum`, raising
`min_weight` from 1 to 2 with capping disabled does not increase the edge
count, and lowering `node_cap` from 11 to 5 does not increase the node
count. -/
theorem c5_monotone_filtering_witness :
    ((0 : Int) ≤ 0 ∧ (1 : Int) ≤ 2 ∧ (0 : Int) < 5 ∧ (5 : Int) ≤ 11)
    ∧ ((archFilter cexAccum "all" 2 0).edges.length
        ≤ (archFilter cexAccum "all" 1 0).edges.length
      ∧ (archFilter cexAccum "all" 1 5).nodes.length
        ≤ (archFilter cexAccum "all" 1 11).nodes.length) :=
  ⟨⟨by decide, by decide, by decide, by decide⟩,
   c5_monotone_filtering cexAccum "all" 1 2 0 5 11 (by decide) (by decide) (by decide)
     (by decide)⟩

end ArchGraph
